import Mathlib

/-!
Verification of the api-man configuration / request-resolution engine
(config.go of shaikzhafir/api-man) against its specification.

The filesystem is modelled as a finite association list from paths
(component lists; filepath.Join is list append) to file nodes, together
with an explicit list of directories (os.MkdirAll adds one).  A directory
also "exists" whenever it is a proper prefix of some stored file path.

JSON (de)serialisation of the two record types is modelled by storing the
typed record in the file node: json.MarshalIndent of a record stores a
`reqData`/`envData` node, json.Unmarshal succeeds exactly on a node of the
expected shape, and a `rawData` node models bytes (body-variant payloads,
or content that does not parse as the expected record).  Write failures
(spec error class IOError) are outside the model: os.WriteFile and
os.MkdirAll always succeed.
-/

namespace ApiMan

/-- A filesystem path as a list of components; filepath.Join is `++`. -/
abbrev Path := List String

deriving instance DecidableEq for Except

/-- struct RequestConfig of config.go.  Go string maps are modelled as
association lists.  The `params` field (map[string]interface, reserved,
never consumed by execution) keeps string values. -/
structure RequestConfig where
  name : String
  description : String
  method : String
  url : String
  headers : List (String × String)
  cookies : List (String × String)
  body : String
  activeBody : String
  params : List (String × String)
  timeout : Int
  deriving DecidableEq

/-- struct Environment of config.go.  `vars` is the Variables field
(Lean reserves the surface name). -/
structure Environment where
  baseURL : String
  headers : List (String × String)
  cookies : List (String × String)
  auth : List (String × String)
  vars : List (String × String)
  deriving DecidableEq

/-- Contents of one on-disk file.  `reqData`/`envData` model a JSON
serialisation of the record (see module docstring); `rawData` models raw
bytes, used for body-variant files and for content that fails to
unmarshal as the expected record type. -/
inductive FileData where
  | reqData (c : RequestConfig)
  | envData (e : Environment)
  | rawData (s : String)
  deriving DecidableEq

/-- Filesystem state: files plus explicitly created directories. -/
structure FS where
  files : List (Path × FileData)
  dirs : List Path
  deriving DecidableEq

/-- Content of the file at `p`, if a file is there (os.ReadFile). -/
def findFile (fs : FS) (p : Path) : Option FileData :=
  (fs.files.find? (fun f => f.1 == p)).map (fun f => f.2)

/-- There is a file at `p`. -/
def fileExists (fs : FS) (p : Path) : Bool :=
  fs.files.any (fun f => f.1 == p)

/-- The directory `p` exists: it was created explicitly (or is a prefix of
a created directory), or some file lives strictly below it. -/
def dirExists (fs : FS) (p : Path) : Bool :=
  fs.dirs.any (fun d => p.isPrefixOf d) ||
    fs.files.any (fun f => p.isPrefixOf f.1 && !(f.1 == p))

/-- os.Stat succeeds (not os.IsNotExist): a file or a directory is at `p`. -/
def statExists (fs : FS) (p : Path) : Bool :=
  fileExists fs p || dirExists fs p

/-- os.WriteFile: create or replace the file at `p`. -/
def writeFile (fs : FS) (p : Path) (d : FileData) : FS :=
  { fs with files := fs.files.filter (fun f => !(f.1 == p)) ++ [(p, d)] }

/-- os.MkdirAll: record the directory (its prefixes exist through
`dirExists`). -/
def mkdirAll (fs : FS) (p : Path) : FS :=
  { fs with dirs := p :: fs.dirs }

/-- Drop the file at `p`. -/
def removeFileFS (fs : FS) (p : Path) : FS :=
  { fs with files := fs.files.filter (fun f => !(f.1 == p)) }

/-- The directory `p` has an entry strictly below it. -/
def hasChild (fs : FS) (p : Path) : Bool :=
  fs.files.any (fun f => p.isPrefixOf f.1 && !(f.1 == p)) ||
    fs.dirs.any (fun d => p.isPrefixOf d && !(d == p))

/-- os.Remove: removes a file, or an empty directory; fails otherwise.
Returns the new state and whether the call succeeded. -/
def osRemove (fs : FS) (p : Path) : FS × Bool :=
  if fileExists fs p then (removeFileFS fs p, true)
  else if dirExists fs p && !(hasChild fs p) then
    ({ fs with dirs := fs.dirs.filter (fun d => !(d == p)) }, true)
  else (fs, false)

/-- os.ReadFile used for raw text (body variants): the bytes of the file
at `p`.  Typed record nodes are not used as raw text in any scenario
modelled here; reading one is modelled as a failed raw read. -/
def readRaw (fs : FS) (p : Path) : Option String :=
  match findFile fs p with
  | some (FileData.rawData s) => some s
  | _ => none

/-- The `requests` root directory (cm.requestsDir). -/
def requestsRoot : Path := ["requests"]

/-- The `environments` root directory (cm.environmentsDir). -/
def environmentsRoot : Path := ["environments"]

/-- Error classes of the spec taxonomy, mapped from the code's wrapped
error strings. -/
inductive Err where
  | notFound
  | parseError
  | validationError
  | ioError
  deriving DecidableEq

/-- Append ".json" to the final component (path+".json" on the joined
string). -/
def withJsonExt : Path → Path
  | [] => []
  | [x] => [x ++ ".json"]
  | x :: y :: rest => x :: withJsonExt (y :: rest)

/-- Flat-layout record file `<requestsDir>/<path>.json`. -/
def flatRequestPath (path : Path) : Path :=
  requestsRoot ++ withJsonExt path

/-- The request's directory `<requestsDir>/<path>`. -/
def requestDirPath (path : Path) : Path :=
  requestsRoot ++ path

/-- Directory-layout record file `<requestsDir>/<path>/request.json`. -/
def dirRequestFilePath (path : Path) : Path :=
  requestDirPath path ++ ["request.json"]

/-- A body-variant file `<requestsDir>/<path>/<name>.json`. -/
def bodyVariantPath (path : Path) (name : String) : Path :=
  requestDirPath path ++ [name ++ ".json"]

/-- Read resolution of LoadRequest: the flat file unless os.Stat reports
it absent, in which case the directory-layout record file. -/
def requestRecordPath (fs : FS) (path : Path) : Path :=
  if statExists fs (flatRequestPath path) then flatRequestPath path
  else dirRequestFilePath path

/-- LoadRequest of config.go: resolve the physical location, read, parse. -/
def LoadRequest (fs : FS) (path : Path) : Except Err RequestConfig :=
  match findFile fs (requestRecordPath fs path) with
  | none => Except.error Err.notFound
  | some (FileData.reqData c) => Except.ok c
  | some _ => Except.error Err.parseError

/-- Write resolution of SaveRequest: the directory-layout record file if
the request's directory already exists, else the flat file (creating its
parent directory). -/
def savedRecordPath (fs : FS) (path : Path) : Path :=
  if statExists fs (requestDirPath path) then dirRequestFilePath path
  else flatRequestPath path

/-- SaveRequest of config.go. -/
def SaveRequest (fs : FS) (path : Path) (cfg : RequestConfig) : FS :=
  if statExists fs (requestDirPath path) then
    writeFile fs (dirRequestFilePath path) (FileData.reqData cfg)
  else
    writeFile (mkdirAll fs (requestsRoot ++ path.dropLast))
      (flatRequestPath path) (FileData.reqData cfg)

/-- Environment file `<environmentsDir>/<name>.json`. -/
def envFilePath (name : String) : Path :=
  environmentsRoot ++ [name ++ ".json"]

/-- LoadEnvironment of config.go (always flat). -/
def LoadEnvironment (fs : FS) (name : String) : Except Err Environment :=
  match findFile fs (envFilePath name) with
  | none => Except.error Err.notFound
  | some (FileData.envData e) => Except.ok e
  | some _ => Except.error Err.parseError

/-- s ends with suffix (strings.HasSuffix), on character lists so that it
evaluates by kernel reduction. -/
def strEndsWith (s suf : String) : Bool :=
  suf.data.isSuffixOf s.data

/-- Drop the final n characters of s (the suffix-removal step of
strings.TrimSuffix), on character lists. -/
def strDropRight (s : String) (n : Nat) : String :=
  String.mk (s.data.take (s.data.length - n))

/-- net/textproto's valid header-field byte (token characters). -/
def isTokenChar (c : Char) : Bool :=
  c.isAlphanum || "!#$%&'*+-.^_`|~".data.contains c

/-- net/textproto's canonical form of the characters of a MIME header
key: upper-case at the start and after each hyphen, lower-case elsewhere. -/
def canonChars : Bool → List Char → List Char
  | _, [] => []
  | upper, c :: rest =>
    let c2 := if upper then c.toUpper else c.toLower
    c2 :: canonChars (c2 == '-') rest

/-- textproto.CanonicalMIMEHeaderKey: canonicalise, or return the key
unchanged if it holds a non-token character. -/
def canonicalKey (s : String) : String :=
  if s.data.all isTokenChar then String.mk (canonChars true s.data) else s

/-- An http.Header: ordered association list of canonical keys to values
(each key set at most once by this engine, so a single value suffices). -/
abbrev Headers := List (String × String)

/-- http.Header.Set: replace the value under the canonical key, or append
a new entry. -/
def headerSet (h : Headers) (k v : String) : Headers :=
  let ck := canonicalKey k
  if h.any (fun e => e.1 == ck) then
    h.map (fun e => if e.1 == ck then (ck, v) else e)
  else h ++ [(ck, v)]

/-- http.Header.Get: first value under the canonical key. -/
def headerGet (h : Headers) (k : String) : Option String :=
  (h.find? (fun e => e.1 == canonicalKey k)).map (fun e => e.2)

/-- First value under a key in a Go map modelled as an association list. -/
def lookupStr (m : List (String × String)) (k : String) : Option String :=
  (m.find? (fun e => e.1 == k)).map (fun e => e.2)

/-- One header-application loop of ExecuteRequest: for each entry with a
non-empty value, req.Header.Set(key, value); empty values are skipped. -/
def applyHeaders (h : Headers) (m : List (String × String)) : Headers :=
  m.foldl (fun acc kv => if kv.2 ≠ "" then headerSet acc kv.1 kv.2 else acc) h

/-- The merged headers of a resolved request: environment headers applied
first, then request headers (lines 441-453 of config.go). -/
def resolveHeaders (envH reqH : List (String × String)) : Headers :=
  applyHeaders (applyHeaders [] envH) reqH

/-- One cookie-application loop of ExecuteRequest: for each entry with a
non-empty value, req.AddCookie, which appends the cookie to the outbound
call (net/http's AddCookie concatenates onto the Cookie header; cookie
sanitisation is the identity on the values considered here). -/
def applyCookies (jar m : List (String × String)) : List (String × String) :=
  m.foldl (fun acc kv => if kv.2 ≠ "" then acc ++ [(kv.1, kv.2)] else acc) jar

/-- The cookies carried by a resolved request: environment cookies
appended first, then request cookies (lines 455-475 of config.go). -/
def resolveCookies (envC reqC : List (String × String)) : List (String × String) :=
  applyCookies (applyCookies [] envC) reqC

/-- The base64 alphabet. -/
def b64Alphabet : List Char :=
  "ABCDEFGHIJKLMNOPQRSTUVWXYZabcdefghijklmnopqrstuvwxyz0123456789+/".data

/-- One base64 digit. -/
def b64Char (n : Nat) : Char := b64Alphabet.getD n 'A'

/-- Standard base64 of a byte sequence. -/
def base64Encode : List UInt8 → List Char
  | b1 :: b2 :: b3 :: rest =>
    b64Char (b1.toNat / 4) ::
    b64Char ((b1.toNat % 4) * 16 + b2.toNat / 16) ::
    b64Char ((b2.toNat % 16) * 4 + b3.toNat / 64) ::
    b64Char (b3.toNat % 64) :: base64Encode rest
  | [b1, b2] =>
    [b64Char (b1.toNat / 4), b64Char ((b1.toNat % 4) * 16 + b2.toNat / 16),
     b64Char ((b2.toNat % 16) * 4), '=']
  | [b1] =>
    [b64Char (b1.toNat / 4), b64Char ((b1.toNat % 4) * 16), '=', '=']
  | [] => []

/-- net/http basicAuth: base64 of "username:password". -/
def basicCredential (u p : String) : String :=
  String.mk (base64Encode (u ++ ":" ++ p).toUTF8.toList)

/-- Auth application of ExecuteRequest (lines 477-497 of config.go):
exactly one scheme keyed on auth["type"], each guarded on its fields. -/
def applyAuth (auth : List (String × String)) (h : Headers) : Headers :=
  match lookupStr auth "type" with
  | none => h
  | some t =>
    if t ≠ "" then
      if t = "bearer" then
        match lookupStr auth "token" with
        | some tok => if tok ≠ "" then headerSet h "Authorization" ("Bearer " ++ tok) else h
        | none => h
      else if t = "basic" then
        match lookupStr auth "username", lookupStr auth "password" with
        | some u, some p => headerSet h "Authorization" ("Basic " ++ basicCredential u p)
        | _, _ => h
      else if t = "api-key" then
        match lookupStr auth "key" with
        | some key =>
          if key ≠ "" then
            match lookupStr auth "header" with
            | some hd => if hd ≠ "" then headerSet h hd key else h
            | none => h
          else h
        | none => h
      else h
    else h

/-- strings.ReplaceAll over character lists: scan left to right, replace
each non-overlapping occurrence of `pat`.  (Go's behaviour for an empty
pattern — interleaving the replacement — is never exercised: the only
pattern used is a placeholder of length at least four; this model leaves
the string unchanged in that case.) -/
def replaceAll (s pat rep : List Char) : List Char :=
  match s with
  | [] => []
  | c :: rest =>
    if h : pat ≠ [] ∧ pat.isPrefixOf (c :: rest) = true then
      rep ++ replaceAll ((c :: rest).drop pat.length) pat rep
    else
      c :: replaceAll rest pat rep
termination_by s.length
decreasing_by
  · simp only [List.length_drop]
    have hp : 0 < pat.length := List.length_pos.mpr h.1
    simp only [List.length_cons]
    omega
  · simp only [List.length_cons]
    omega

/-- The literal placeholder for a variable key. -/
def placeholder (k : String) : String := "\x7b\x7b" ++ k ++ "\x7d\x7d"

/-- Variable substitution of ExecuteRequest (lines 412-415 of config.go):
for each entry, strings.ReplaceAll of the key's placeholder by its value.
The Go map's unspecified iteration order is fixed to the list order. -/
def substituteVars (vars : List (String × String)) (url : String) : String :=
  vars.foldl
    (fun u kv => String.mk (replaceAll u.data (placeholder kv.1).data kv.2.data)) url

/-- env.BaseURL with one trailing slash stripped (lines 405-408). -/
def stripTrailingSlash (s : String) : String :=
  if s ≠ "" && strEndsWith s "/" then strDropRight s 1 else s

/-- Body selection of ExecuteRequest (lines 417-428): with a non-empty
activeBody, if the request's directory exists and the variant file can be
read, its contents override the inline body; otherwise the inline body. -/
def selectBody (fs : FS) (path : Path) (cfg : RequestConfig) : String :=
  if cfg.activeBody ≠ "" then
    if statExists fs (requestDirPath path) then
      match readRaw fs (bodyVariantPath path cfg.activeBody) with
      | some s => s
      | none => cfg.body
    else cfg.body
  else cfg.body

/-- if config.Timeout is zero, a 30-second default (lines 500-503). -/
def effectiveTimeout (t : Int) : Int := if t = 0 then 30 else t

/-- The outbound call built by ExecuteRequest: method, substituted URL,
merged headers, cookie list, chosen body ("" means no body reader), and
the client timeout. -/
structure Descriptor where
  method : String
  url : String
  headers : Headers
  cookies : List (String × String)
  body : String
  timeoutSeconds : Int
  deriving DecidableEq

/-- ExecuteRequest of config.go up to (and excluding) client.Do: load the
record and environment, build the URL, substitute variables, choose the
body, merge headers and cookies, apply auth, fix the timeout.  The
network call itself is outside the model. -/
def ExecuteRequest (fs : FS) (requestPath : Path) (envName : String) :
    Except Err Descriptor := do
  let cfg ← LoadRequest fs requestPath
  let env ← LoadEnvironment fs envName
  let fullURL := stripTrailingSlash env.baseURL ++ cfg.url
  let fullURL := substituteVars env.vars fullURL
  let bodyToUse := selectBody fs requestPath cfg
  let hs := resolveHeaders env.headers cfg.headers
  let jar := resolveCookies env.cookies cfg.cookies
  let hs := applyAuth env.auth hs
  pure { method := cfg.method, url := fullURL, headers := hs, cookies := jar,
         body := bodyToUse, timeoutSeconds := effectiveTimeout cfg.timeout }

/-- SetActiveBody of config.go (lines 512-528): load the record, require
the variant file to exist, then persist the updated record.  The state is
returned alongside the outcome (unchanged on failure). -/
def SetActiveBody (fs : FS) (path : Path) (name : String) : FS × Except Err Unit :=
  match LoadRequest fs path with
  | Except.error e => (fs, Except.error e)
  | Except.ok cfg =>
    if statExists fs (bodyVariantPath path name) then
      (SaveRequest fs path { cfg with activeBody := name }, Except.ok ())
    else
      (fs, Except.error Err.validationError)

/-- The reload-and-clear tail of RemoveBody (lines 567-578 of config.go),
run on the state left after the variant file was deleted: reload the
record, and if the removed variant was the active one, clear activeBody
and persist. -/
def removeBodyAfter (fs1 : FS) (path : Path) (name : String) : FS × Except Err Unit :=
  match LoadRequest fs1 path with
  | Except.error e => (fs1, Except.error e)
  | Except.ok cfg =>
    if cfg.activeBody = name then
      (SaveRequest fs1 path { cfg with activeBody := "" }, Except.ok ())
    else (fs1, Except.ok ())

/-- RemoveBody of config.go (lines 554-579): require the variant file to
exist, delete it, then reload and clear (see `removeBodyAfter`).  The
state is returned alongside the outcome. -/
def RemoveBody (fs : FS) (path : Path) (name : String) : FS × Except Err Unit :=
  if statExists fs (bodyVariantPath path name) then
    match osRemove fs (bodyVariantPath path name) with
    | (fs1, false) => (fs1, Except.error Err.ioError)
    | (fs1, true) => removeBodyAfter fs1 path name
  else (fs, Except.error Err.notFound)

/-- Join path components with slashes (the logical-path strings produced
by ListRequests). -/
def joinSlash : Path → String
  | [] => ""
  | [x] => x
  | x :: y :: rest => x ++ "/" ++ joinSlash (y :: rest)

/-- strings.TrimSuffix(s, ".json"). -/
def trimSuffixJson (s : String) : String :=
  if strEndsWith s ".json" then strDropRight s 5 else s

/-- Remove the ".json" extension of the final component. -/
def trimLastJson : Path → Path
  | [] => []
  | [x] => [trimSuffixJson x]
  | x :: y :: rest => x :: trimLastJson (y :: rest)

/-- The final component ("" for the empty path). -/
def lastName (p : Path) : String := p.getLastD ""

/-- The relative path of a walked entry below the requests root, when it
is strictly below it. -/
def relUnderRequests (p : Path) : Option Path :=
  if requestsRoot.isPrefixOf p && decide (requestsRoot.length < p.length) then
    some (p.drop requestsRoot.length)
  else none

/-- The grouping key of ListRequests: the immediate parent directory of
the relative path, or the sentinel "root" for top-level files
(filepath.Dir returning "."). -/
def groupKey (rel : Path) : String :=
  if rel.length == 1 then "root" else joinSlash rel.dropLast

/-- Append a value under a key of the grouped-requests map. -/
def groupAdd (m : List (String × List String)) (k v : String) :
    List (String × List String) :=
  if m.any (fun e => e.1 == k) then
    m.map (fun e => if e.1 == k then (e.1, e.2 ++ [v]) else e)
  else m ++ [(k, [v])]

/-- The ordered set of entries under a key of the grouped map. -/
def groupGet (m : List (String × List String)) (k : String) : List String :=
  ((m.find? (fun e => e.1 == k)).map (fun e => e.2)).getD []

/-- One step of the ListRequests walk: a file strictly below the
requests root whose name ends in ".json" is recorded, with the extension
stripped, under its parent-directory group. -/
def listStep (m : List (String × List String)) (f : Path × FileData) :
    List (String × List String) :=
  match relUnderRequests f.1 with
  | none => m
  | some rel =>
    if strEndsWith (lastName rel) ".json" then
      groupAdd m (groupKey rel) (joinSlash (trimLastJson rel))
    else m

/-- ListRequests of config.go (lines 204-241): walk the requests root,
keep every file ending in ".json", strip the extension, group by the
immediate parent directory.  filepath.WalkDir's lexical order is
abstracted to the stored file order (no claim depends on the order). -/
def ListRequests (fs : FS) : List (String × List String) :=
  fs.files.foldl listStep []

/-- A walked file contributes entry `e` to group `k` (spec-side
characterisation of one `listStep`). -/
def contributes (f : Path × FileData) (k e : String) : Prop :=
  ∃ rel, relUnderRequests f.1 = some rel
    ∧ strEndsWith (lastName rel) ".json" = true
    ∧ k = groupKey rel ∧ e = joinSlash (trimLastJson rel)

/-- The default dev environment written by initializeDefaultFiles. -/
def devEnv : Environment :=
  { baseURL := "http://localhost:3000"
    headers := [("Content-Type", "application/json")]
    cookies := []
    auth := []
    vars := [("host", "localhost:3000")] }

/-- The default prod environment written by initializeDefaultFiles. -/
def prodEnv : Environment :=
  { baseURL := "https://api.example.com"
    headers := [("Content-Type", "application/json")]
    cookies := []
    auth := []
    vars := [("host", "api.example.com")] }

/-- The sample request written by initializeDefaultFiles. -/
def sampleRequest : RequestConfig :=
  { name := "Get Users (this is a sample request so you wont think this is a dead project)"
    description := "Fetch all users from the API"
    method := "GET"
    url := "/users"
    headers := []
    cookies := []
    body := ""
    activeBody := ""
    params := []
    timeout := 30 }

/-- os.ReadDir finding at least one entry (file or directory) strictly
below `d`. -/
def dirHasEntries (fs : FS) (d : Path) : Bool :=
  fs.files.any (fun f => d.isPrefixOf f.1 && !(f.1 == d)) ||
    fs.dirs.any (fun q => d.isPrefixOf q && !(q == d))

/-- Write one default environment file if os.Stat reports it absent. -/
def writeEnvIfAbsent (fs : FS) (name : String) (e : Environment) : FS :=
  if statExists fs (envFilePath name) then fs
  else writeFile fs (envFilePath name) (FileData.envData e)

/-- The sample-request half of initializeDefaultFiles (lines 116-142):
if the requests directory has no entries, create requests/users and save
the sample request under users/get-users. -/
def seedSampleRequest (fs2 : FS) : FS :=
  if dirHasEntries fs2 requestsRoot then fs2
  else
    SaveRequest (mkdirAll fs2 (requestsRoot ++ ["users"])) ["users", "get-users"]
      sampleRequest

/-- initializeDefaultFiles of config.go (lines 74-145): each default
environment file is written when that file does not exist (the Go map's
iteration order over the two independent files is fixed to dev, prod);
then the sample request is written when the requests directory has no
entries. -/
def initializeDefaultFiles (fs : FS) : FS :=
  seedSampleRequest (writeEnvIfAbsent (writeEnvIfAbsent fs "dev" devEnv) "prod" prodEnv)

/-- Spec-side merge rule for one layer: a key's value is used unless it
is absent or empty. -/
def layerValue (m : List (String × String)) (k : String) : Option String :=
  match lookupStr m k with
  | some v => if v = "" then none else some v
  | none => none

/-- Spec-side characterisation of the header merge (the amended claim):
the request's non-empty value wins; a request entry with an empty value
is skipped from its own layer only, so the environment's non-empty value
is still sent. -/
def mergeSpec (envH reqH : List (String × String)) (k : String) : Option String :=
  match lookupStr reqH k with
  | some v => if v = "" then layerValue envH k else some v
  | none => layerValue envH k

/-- The degenerate auth descriptors of claim C9: type absent, empty or
unrecognised; bearer with a missing or empty token; api-key with a
missing or empty key or header name. -/
def authInactive (auth : List (String × String)) : Prop :=
  lookupStr auth "type" = none
  ∨ lookupStr auth "type" = some ""
  ∨ (∃ t, lookupStr auth "type" = some t ∧ t ≠ "bearer" ∧ t ≠ "basic" ∧ t ≠ "api-key")
  ∨ (lookupStr auth "type" = some "bearer"
      ∧ (lookupStr auth "token" = none ∨ lookupStr auth "token" = some ""))
  ∨ (lookupStr auth "type" = some "api-key"
      ∧ (lookupStr auth "key" = none ∨ lookupStr auth "key" = some ""
        ∨ lookupStr auth "header" = none ∨ lookupStr auth "header" = some ""))

/-- A full URL decomposed into literal text and variable placeholders
(spec-side view used to state the substitution claim). -/
inductive URLSeg where
  | lit (s : String)
  | ph (k : String)
  deriving DecidableEq

/-- Render one segment back to text. -/
def renderSeg : URLSeg → String
  | URLSeg.lit s => s
  | URLSeg.ph k => placeholder k

/-- Render a segment list back to the URL string. -/
def renderURL : List URLSeg → String
  | [] => ""
  | sg :: rest => renderSeg sg ++ renderURL rest

/-- A string without brace characters. -/
def braceFree (s : String) : Bool :=
  s.data.all (fun c => !(c == '\x7b') && !(c == '\x7d'))

/-- Well-formed segment: literals and placeholder keys are brace-free. -/
def segWF : URLSeg → Bool
  | URLSeg.lit s => braceFree s
  | URLSeg.ph k => braceFree k

/-- Substitute one variable in a segment. -/
def substSegOne (k v : String) : URLSeg → URLSeg
  | URLSeg.lit s => URLSeg.lit s
  | URLSeg.ph k2 => if k2 = k then URLSeg.lit v else URLSeg.ph k2

/-- Substitute a whole variables map in a segment: a placeholder whose
key is bound becomes its (first) value, any other placeholder stays. -/
def substSeg (vars : List (String × String)) : URLSeg → URLSeg
  | URLSeg.lit s => URLSeg.lit s
  | URLSeg.ph k =>
    match lookupStr vars k with
    | some v => URLSeg.lit v
    | none => URLSeg.ph k

/-- Environment for the substitution example: variables bind host to
api.test. -/
def exEnvHost : Environment :=
  { baseURL := "", headers := [], cookies := [], auth := [],
    vars := [("host", "api.test")] }

/-- Request whose URL holds one bound and one unbound placeholder. -/
def exCfgURL : RequestConfig :=
  { name := "n", description := "", method := "GET",
    url := "https://\x7b\x7bhost\x7d\x7d/v1/\x7b\x7bmissing\x7d\x7d",
    headers := [], cookies := [], body := "", activeBody := "",
    params := [], timeout := 0 }

/-- Segment decomposition of the example URL. -/
def segsEx : List URLSeg :=
  [URLSeg.lit "https://", URLSeg.ph "host", URLSeg.lit "/v1/", URLSeg.ph "missing"]

/-- A request record used by the concrete scenarios: inline body,
active variant "admin". -/
def exCfg : RequestConfig :=
  { name := "n", description := "", method := "GET", url := "/u",
    headers := [], cookies := [], body := "inline", activeBody := "admin",
    params := [], timeout := 0 }

/-- An environment with no headers, cookies, auth or variables. -/
def exEnv : Environment :=
  { baseURL := "", headers := [], cookies := [], auth := [], vars := [] }

/-- An environment whose auth descriptor has an unrecognised type. -/
def exEnvDigest : Environment :=
  { baseURL := "", headers := [("X-E", "1")], cookies := [], auth := [("type", "digest"), ("token", "t")], vars := [] }

/-- Scenario: flat-layout record with an existing active variant file. -/
def fsVariantPresent : FS :=
  { files := [(["requests", "users", "get-users.json"], FileData.reqData exCfg),
              (["requests", "users", "get-users", "admin.json"], FileData.rawData "variant-body"),
              (["environments", "dev.json"], FileData.envData exEnv)],
    dirs := [["requests"], ["environments"], ["requests", "users", "get-users"]] }

/-- Scenario: same record, the active variant file deleted externally. -/
def fsVariantDeleted : FS :=
  { files := [(["requests", "users", "get-users.json"], FileData.reqData exCfg),
              (["environments", "dev.json"], FileData.envData exEnv)],
    dirs := [["requests"], ["environments"], ["requests", "users", "get-users"]] }

/-- Scenario for C4: a flat record file coexists with the variant
directory (the state SetActiveBody itself produces for a flat request
that acquired variants). -/
def fsDualLayout : FS :=
  { files := [(["requests", "users", "get-users.json"], FileData.reqData exCfg),
              (["requests", "users", "get-users", "admin.json"], FileData.rawData "\x7b\x7d")],
    dirs := [["requests"], ["environments"], ["requests", "users", "get-users"]] }

/-- Scenario: directory-layout record with its active variant. -/
def fsDirLayout : FS :=
  { files := [(["requests", "users", "pu", "request.json"], FileData.reqData exCfg),
              (["requests", "users", "pu", "admin.json"], FileData.rawData "x")],
    dirs := [["requests"], ["environments"], ["requests", "users", "pu"]] }

/-- Scenario: an empty workspace (no records, no variants). -/
def fsEmptyWorkspace : FS :=
  { files := [], dirs := [["requests"], ["environments"]] }

/-- Scenario for C6: a directory-layout request with one variant. -/
def fsDirWithVariant : FS :=
  { files := [(["requests", "users", "get-users", "request.json"], FileData.reqData exCfg),
              (["requests", "users", "get-users", "admin.json"], FileData.rawData "x")],
    dirs := [["requests"], ["environments"], ["requests", "users", "get-users"]] }

/-- Scenario for C8: the environments directory is non-empty (one custom
environment) but has no dev.json. -/
def fsCustomEnvOnly : FS :=
  { files := [(["environments", "custom.json"], FileData.envData exEnv)],
    dirs := [["requests"], ["environments"]] }

/-- Scenario for C10: a variant file exists but the request record is
missing. -/
def fsVariantNoRecord : FS :=
  { files := [(["requests", "users", "pu", "admin.json"], FileData.rawData "x")],
    dirs := [["requests"], ["environments"]] }

/-- Scenario for C9: flat record plus an environment with an
unrecognised auth type. -/
def fsDigestAuth : FS :=
  { files := [(["requests", "users", "get-users.json"], FileData.reqData exCfg),
              (["environments", "dev.json"], FileData.envData exEnvDigest)],
    dirs := [["requests"], ["environments"]] }

/-- Scenario for C5's witness: flat record plus an existing variant. -/
def fsFlatWithVariant : FS :=
  { files := [(["requests", "users", "get-users.json"], FileData.reqData exCfg),
              (["requests", "users", "get-users", "admin.json"], FileData.rawData "x")],
    dirs := [["requests"], ["environments"], ["requests", "users", "get-users"]] }

/-! ### Header merge lemmas (claim C1) -/

theorem lookupStr_cons_self (kv : String × String) (m : List (String × String)) (k : String)
    (h : kv.1 = k) : lookupStr (kv :: m) k = some kv.2 := by
  unfold lookupStr
  rw [List.find?_cons_of_pos _ (by simp [h])]
  rfl

theorem lookupStr_cons_ne (kv : String × String) (m : List (String × String)) (k : String)
    (h : ¬ kv.1 = k) : lookupStr (kv :: m) k = lookupStr m k := by
  unfold lookupStr
  rw [List.find?_cons_of_neg _ (by simp [h])]

theorem lookupStr_eq_none (m : List (String × String)) (k : String)
    (h : k ∉ m.map Prod.fst) : lookupStr m k = none := by
  unfold lookupStr
  rw [List.find?_eq_none.mpr]
  · rfl
  · intro e he hpe
    exact h ((beq_iff_eq.mp hpe) ▸ List.mem_map_of_mem Prod.fst he)

theorem find?_map_set (l : List (String × String)) (ck v : String) :
    (l.map (fun e => if e.1 == ck then (ck, v) else e)).find? (fun e => e.1 == ck)
      = if l.any (fun e => e.1 == ck) then some (ck, v) else none := by
  induction l with
  | nil => rfl
  | cons e l ih =>
    by_cases he : e.1 = ck
    · simp [he]
    · simp only [List.map_cons, List.any_cons]
      rw [List.find?_cons_of_neg _ (by simp [he]), ih]
      have hb : (e.1 == ck) = false := by simp [he]
      simp only [hb, Bool.false_or]

theorem find?_map_set_ne (l : List (String × String)) (ck v k : String) (hk : k ≠ ck) :
    (l.map (fun e => if e.1 == ck then (ck, v) else e)).find? (fun e => e.1 == k)
      = l.find? (fun e => e.1 == k) := by
  induction l with
  | nil => rfl
  | cons e l ih =>
    by_cases he : e.1 = ck
    · simp only [List.map_cons, he, beq_self_eq_true, if_true]
      rw [List.find?_cons_of_neg _ (by simp [Ne.symm hk]),
        List.find?_cons_of_neg _ (by simp [he]; exact Ne.symm hk), ih]
    · simp only [List.map_cons, if_neg (by simp [he] : ¬ (e.1 == ck) = true)]
      by_cases hek : e.1 = k
      · rw [List.find?_cons_of_pos _ (by simp [hek]), List.find?_cons_of_pos _ (by simp [hek])]
      · rw [List.find?_cons_of_neg _ (by simp [hek]), List.find?_cons_of_neg _ (by simp [hek]), ih]

theorem headerGet_headerSet_eq (h : Headers) (k v k2 : String)
    (hck : canonicalKey k2 = canonicalKey k) :
    headerGet (headerSet h k v) k2 = some v := by
  unfold headerGet headerSet
  rw [hck]
  by_cases ha : h.any (fun e => e.1 == canonicalKey k) = true
  · simp only [ha, if_true, find?_map_set]
    rfl
  · simp only [ha, if_false, Bool.false_eq_true]
    rw [List.find?_append, List.find?_eq_none.mpr]
    · simp
    · intro x hx hpx
      exact ha (List.any_eq_true.mpr ⟨x, hx, hpx⟩)

theorem headerGet_headerSet_ne (h : Headers) (k v k2 : String)
    (hck : canonicalKey k2 ≠ canonicalKey k) :
    headerGet (headerSet h k v) k2 = headerGet h k2 := by
  unfold headerGet headerSet
  by_cases ha : h.any (fun e => e.1 == canonicalKey k) = true
  · simp only [ha, if_true]
    rw [find?_map_set_ne _ _ _ _ hck]
  · simp only [ha, if_false, Bool.false_eq_true]
    rw [List.find?_append]
    have hone : List.find? (fun e => e.1 == canonicalKey k2) [(canonicalKey k, v)] = none := by
      simp [Ne.symm hck]
    rw [hone]
    cases h.find? (fun e => e.1 == canonicalKey k2) <;> rfl

/-- Characterisation of one header-application loop: under canonical
no-duplicate keys, a key's final value is the map's non-empty value if
present, else whatever the accumulator held. -/
theorem headerGet_applyHeaders (m : List (String × String)) (h : Headers) (k : String)
    (hk : canonicalKey k = k)
    (hm : ∀ kv ∈ m, canonicalKey kv.1 = kv.1)
    (hnd : (m.map Prod.fst).Nodup) :
    headerGet (applyHeaders h m) k =
      match lookupStr m k with
      | some v => if v = "" then headerGet h k else some v
      | none => headerGet h k := by
  induction m generalizing h with
  | nil => rfl
  | cons kv m ih =>
    have hkv1 : canonicalKey kv.1 = kv.1 := hm kv (List.mem_cons_self _ _)
    have hm2 : ∀ e ∈ m, canonicalKey e.1 = e.1 := fun e he => hm e (List.mem_cons_of_mem _ he)
    have hnd2 : (m.map Prod.fst).Nodup := (List.nodup_cons.mp hnd).2
    have hnotm : kv.1 ∉ m.map Prod.fst := (List.nodup_cons.mp hnd).1
    unfold applyHeaders at ih ⊢
    simp only [List.foldl_cons]
    by_cases hkk : k = kv.1
    · have hlook : lookupStr m k = none := lookupStr_eq_none m k (hkk ▸ hnotm)
      rw [lookupStr_cons_self kv m k hkk.symm]
      by_cases hv : kv.2 = ""
      · simp only [hv, ne_eq, not_true_eq_false, if_false]
        rw [ih _ hm2 hnd2, hlook]
        simp [hv]
      · simp only [ne_eq, hv, not_false_eq_true, if_true]
        rw [ih _ hm2 hnd2, hlook]
        simp only [hv, if_false]
        exact headerGet_headerSet_eq h kv.1 kv.2 k (by rw [hk, hkk, hkv1])
    · rw [lookupStr_cons_ne kv m k (fun he => hkk he.symm)]
      by_cases hv : kv.2 = ""
      · simp only [hv, ne_eq, not_true_eq_false, if_false]
        exact ih h hm2 hnd2
      · simp only [ne_eq, hv, not_false_eq_true, if_true]
        rw [ih _ hm2 hnd2]
        have hgs : headerGet (headerSet h kv.1 kv.2) k = headerGet h k :=
          headerGet_headerSet_ne h kv.1 kv.2 k (by rw [hk, hkv1]; exact hkk)
        cases hl : lookupStr m k with
        | none => simpa [hl] using hgs
        | some v => by_cases hv2 : v = "" <;> simp [hv2, hgs]

/-- C1 (corrected).  Resolved headers: start from the environment's
headers, overlay the request's headers; an entry with an empty value is
skipped from its own layer, so a non-empty request value wins a
collision while an empty request value leaves the environment's
non-empty value in place (it is still sent); for the spec's example the
resolved headers are exactly X-A:1, X-B:3. -/
theorem claim_C1_amended (envH reqH : List (String × String))
    (he : ∀ kv ∈ envH, canonicalKey kv.1 = kv.1)
    (hr : ∀ kv ∈ reqH, canonicalKey kv.1 = kv.1)
    (hne : (envH.map Prod.fst).Nodup) (hnr : (reqH.map Prod.fst).Nodup) :
    (∀ k, canonicalKey k = k →
        headerGet (resolveHeaders envH reqH) k = mergeSpec envH reqH k)
    ∧ resolveHeaders [("X-A", "1"), ("X-B", "2")] [("X-B", "3"), ("X-C", "")]
        = [("X-A", "1"), ("X-B", "3")] := by
  constructor
  · intro k hk
    unfold resolveHeaders mergeSpec layerValue
    rw [headerGet_applyHeaders reqH _ k hk hr hnr,
      headerGet_applyHeaders envH _ k hk he hne]
    have hnil : headerGet [] k = none := rfl
    cases lookupStr reqH k with
    | none => cases lookupStr envH k with
      | none => simp [hnil]
      | some w => by_cases hw : w = "" <;> simp [hw, hnil]
    | some v =>
      by_cases hv : v = ""
      · cases lookupStr envH k with
        | none => simp [hv, hnil]
        | some w => by_cases hw : w = "" <;> simp [hv, hw, hnil]
      · simp [hv]
  · decide

/-- C1, counterexample to the claim as stated: the request carries X-B
with an empty value while the environment binds X-B to "2"; the claim
says the key is then never sent, but the resolved headers still carry
X-B:2. -/
theorem claim_C1_counterexample :
    headerGet (resolveHeaders [("X-B", "2")] [("X-B", "")]) "X-B" = some "2" := by
  decide

/-- C1, witness: the amended merge rule instantiated at the spec's
example input. -/
theorem claim_C1_witness :
    headerGet (resolveHeaders [("X-A", "1"), ("X-B", "2")] [("X-B", "3"), ("X-C", "")]) "X-B"
      = some "3" := by
  have h := (claim_C1_amended [("X-A", "1"), ("X-B", "2")] [("X-B", "3"), ("X-C", "")]
    (by decide) (by decide) (by decide) (by decide)).1 "X-B" (by decide)
  rw [h]
  decide

/-! ### Cookie merge (claim C2) -/

/-- C2 (code bug).  The code's comment says request cookies override
environment cookies, and the claim says the resolved call carries
exactly one cookie per colliding name with the request's value; but
req.AddCookie appends, so for environment cookie session=a and request
cookie session=b the outbound call carries both cookies (two cookies
named "session"), the environment's first. -/
theorem claim_C2_eval :
    resolveCookies [("session", "a")] [("session", "b")]
        = [("session", "a"), ("session", "b")]
    ∧ ((resolveCookies [("session", "a")] [("session", "b")]).filter
        (fun e => e.1 == "session")).length = 2 := by
  decide

/-! ### Stateful lemmas shared by the store claims -/

theorem findFile_some_mem (fs : FS) (p : Path) (d : FileData)
    (h : findFile fs p = some d) : ∃ entry ∈ fs.files, entry.1 = p ∧ entry.2 = d := by
  unfold findFile at h
  cases hf : fs.files.find? (fun f => f.1 == p) with
  | none => rw [hf] at h; exact absurd h (by simp)
  | some e =>
    rw [hf] at h
    have hpe := List.find?_some hf
    refine ⟨e, List.mem_of_find?_eq_some hf, ?_, ?_⟩
    · simpa using hpe
    · simpa using h

theorem dirExists_of_file_below (fs : FS) (p : Path) (x : String) (d : FileData)
    (h : findFile fs (p ++ [x]) = some d) : dirExists fs p = true := by
  obtain ⟨entry, hmem, hp, _⟩ := findFile_some_mem fs (p ++ [x]) d h
  unfold dirExists
  refine Bool.or_eq_true_iff.mpr (Or.inr (List.any_eq_true.mpr ⟨entry, hmem, ?_⟩))
  rw [hp]
  refine Bool.and_eq_true_iff.mpr ⟨ List.isPrefixOf_iff_prefix.mpr ⟨[x], rfl⟩, ?_⟩
  simp

/-- ExecuteRequest unfolded, once both loads succeed. -/
theorem ExecuteRequest_eq (fs : FS) (path : Path) (envName : String)
    (cfg : RequestConfig) (env : Environment)
    (hload : LoadRequest fs path = Except.ok cfg)
    (henv : LoadEnvironment fs envName = Except.ok env) :
    ExecuteRequest fs path envName = Except.ok
      { method := cfg.method
        url := substituteVars env.vars (stripTrailingSlash env.baseURL ++ cfg.url)
        headers := applyAuth env.auth (resolveHeaders env.headers cfg.headers)
        cookies := resolveCookies env.cookies cfg.cookies
        body := selectBody fs path cfg
        timeoutSeconds := effectiveTimeout cfg.timeout } := by
  unfold ExecuteRequest
  rw [hload, henv]
  rfl

theorem selectBody_of_readRaw_some (fs : FS) (path : Path) (cfg : RequestConfig) (s : String)
    (hab : cfg.activeBody ≠ "")
    (h : readRaw fs (bodyVariantPath path cfg.activeBody) = some s) :
    selectBody fs path cfg = s := by
  have hfind : findFile fs (bodyVariantPath path cfg.activeBody)
      = some (FileData.rawData s) := by
    unfold readRaw at h
    cases hf : findFile fs (bodyVariantPath path cfg.activeBody) with
    | none => rw [hf] at h; exact absurd h (by simp)
    | some d =>
      rw [hf] at h
      cases d with
      | rawData t =>
        have ht : t = s := by simpa using h
        rw [ht]
      | reqData c => exact absurd h (by simp)
      | envData e => exact absurd h (by simp)
  have hstat : statExists fs (requestDirPath path) = true := by
    unfold statExists
    rw [dirExists_of_file_below fs (requestDirPath path) (cfg.activeBody ++ ".json") _ hfind]
    simp
  unfold selectBody
  rw [if_pos hab, if_pos hstat, h]

theorem selectBody_of_readRaw_none (fs : FS) (path : Path) (cfg : RequestConfig)
    (h : readRaw fs (bodyVariantPath path cfg.activeBody) = none) :
    selectBody fs path cfg = cfg.body := by
  unfold selectBody
  by_cases hab : cfg.activeBody ≠ ""
  · rw [if_pos hab]
    by_cases hstat : statExists fs (requestDirPath path) = true
    · rw [if_pos hstat, h]
    · rw [if_neg hstat]
  · rw [if_neg hab]

/-- C3 (confirmed).  With a non-empty activeBody: when the variant file
can be read its contents become the body, overriding the inline body;
when it cannot be read (deleted externally), resolution still succeeds
and uses the record's inline body. -/
theorem claim_C3 (fs : FS) (path : Path) (envName : String)
    (cfg : RequestConfig) (env : Environment)
    (hload : LoadRequest fs path = Except.ok cfg)
    (henv : LoadEnvironment fs envName = Except.ok env)
    (hab : cfg.activeBody ≠ "") :
    (∀ s, readRaw fs (bodyVariantPath path cfg.activeBody) = some s →
      ∃ d, ExecuteRequest fs path envName = Except.ok d ∧ d.body = s)
    ∧ (readRaw fs (bodyVariantPath path cfg.activeBody) = none →
      ∃ d, ExecuteRequest fs path envName = Except.ok d ∧ d.body = cfg.body) := by
  constructor
  · intro s hs
    refine ⟨_, ExecuteRequest_eq fs path envName cfg env hload henv, ?_⟩
    exact selectBody_of_readRaw_some fs path cfg s hab hs
  · intro hn
    refine ⟨_, ExecuteRequest_eq fs path envName cfg env hload henv, ?_⟩
    exact selectBody_of_readRaw_none fs path cfg hn

/-- C3, witness: concrete scenarios with the active variant present
(body overridden) and externally deleted (inline body, no failure). -/
theorem claim_C3_witness :
    (∃ d, ExecuteRequest fsVariantPresent ["users", "get-users"] "dev" = Except.ok d
      ∧ d.body = "variant-body")
    ∧ (∃ d, ExecuteRequest fsVariantDeleted ["users", "get-users"] "dev" = Except.ok d
      ∧ d.body = "inline") := by
  constructor
  · exact (claim_C3 fsVariantPresent ["users", "get-users"] "dev" exCfg exEnv
      (by decide) (by decide) (by decide)).1 "variant-body" (by decide)
  · exact (claim_C3 fsVariantDeleted ["users", "get-users"] "dev" exCfg exEnv
      (by decide) (by decide) (by decide)).2 (by decide)

theorem find?_filter_ne (l : List (Path × FileData)) (p q : Path) (h : q ≠ p) :
    (l.filter (fun f => !(f.1 == p))).find? (fun f => f.1 == q)
      = l.find? (fun f => f.1 == q) := by
  induction l with
  | nil => rfl
  | cons e l ih =>
    rw [List.filter_cons]
    by_cases hep : e.1 = p
    · rw [if_neg (by simp [hep]), ih, List.find?_cons_of_neg _ (by simp [hep, Ne.symm h])]
    · rw [if_pos (by simp [hep])]
      by_cases heq : e.1 = q
      · rw [List.find?_cons_of_pos _ (by simp [heq]), List.find?_cons_of_pos _ (by simp [heq])]
      · rw [List.find?_cons_of_neg _ (by simp [heq]), List.find?_cons_of_neg _ (by simp [heq]), ih]

theorem findFile_writeFile_self (fs : FS) (p : Path) (d : FileData) :
    findFile (writeFile fs p d) p = some d := by
  unfold findFile writeFile
  simp only
  rw [List.find?_append, List.find?_eq_none.mpr]
  · simp
  · intro e he hpe
    have hne := (List.mem_filter.mp he).2
    simp only [Bool.not_eq_eq_eq_not, Bool.not_true] at hne
    rw [hne] at hpe
    exact absurd hpe (by simp)

theorem findFile_writeFile_ne (fs : FS) (p : Path) (d : FileData) (q : Path) (h : q ≠ p) :
    findFile (writeFile fs p d) q = findFile fs q := by
  unfold findFile writeFile
  simp only
  rw [List.find?_append, find?_filter_ne _ _ _ h]
  have hone : List.find? (fun f => f.1 == q) [(p, d)] = none := by simp [Ne.symm h]
  rw [hone]
  cases fs.files.find? (fun f => f.1 == q) <;> rfl

theorem findFile_removeFile_self (fs : FS) (p : Path) :
    findFile (removeFileFS fs p) p = none := by
  unfold findFile removeFileFS
  simp only
  rw [List.find?_eq_none.mpr]
  · rfl
  · intro e he hpe
    have hne := (List.mem_filter.mp he).2
    simp only [Bool.not_eq_eq_eq_not, Bool.not_true] at hne
    rw [hne] at hpe
    exact absurd hpe (by simp)

theorem fileExists_removeFile_self (fs : FS) (p : Path) :
    fileExists (removeFileFS fs p) p = false := by
  unfold fileExists removeFileFS
  simp only
  rw [Bool.eq_false_iff]
  intro hany
  obtain ⟨e, he, hpe⟩ := List.any_eq_true.mp hany
  have hne := (List.mem_filter.mp he).2
  simp only [Bool.not_eq_eq_eq_not, Bool.not_true] at hne
  rw [hne] at hpe
  exact absurd hpe (by simp)

theorem findFile_removeFile_ne (fs : FS) (p q : Path) (h : q ≠ p) :
    findFile (removeFileFS fs p) q = findFile fs q := by
  unfold findFile removeFileFS
  simp only
  rw [find?_filter_ne _ _ _ h]

theorem any_of_any_filter {α : Type} (l : List α) (q p2 : α → Bool)
    (h : (l.filter q).any p2 = true) : l.any p2 = true := by
  obtain ⟨a, ha, hp⟩ := List.any_eq_true.mp h
  exact List.any_eq_true.mpr ⟨a, List.mem_of_mem_filter ha, hp⟩

theorem statExists_removeFile_false (fs : FS) (p q : Path)
    (h : statExists fs q = false) : statExists (removeFileFS fs p) q = false := by
  unfold statExists fileExists dirExists at h
  unfold statExists fileExists dirExists removeFileFS
  simp only
  simp only [Bool.or_eq_false_iff] at h ⊢
  refine ⟨?_, ?_, ?_⟩
  · rw [Bool.eq_false_iff]
    intro hany
    rw [any_of_any_filter _ _ _ hany] at h
    exact absurd h.1 (by simp)
  · exact h.2.1
  · rw [Bool.eq_false_iff]
    intro hany
    have := any_of_any_filter _ _ _ hany
    rw [this] at h
    exact absurd h.2.2 (by simp)

theorem statExists_dirsFilter_false (fs : FS) (pred : Path → Bool) (q : Path)
    (h : statExists fs q = false) :
    statExists { fs with dirs := fs.dirs.filter pred } q = false := by
  unfold statExists fileExists dirExists at h ⊢
  simp only
  simp only [Bool.or_eq_false_iff] at h ⊢
  refine ⟨h.1, ?_, h.2.2⟩
  rw [Bool.eq_false_iff]
  intro hany
  have := any_of_any_filter _ _ _ hany
  rw [this] at h
  exact absurd h.2.1 (by simp)

theorem statExists_writeFile_false (fs : FS) (p : Path) (d : FileData) (q : Path)
    (h : statExists fs q = false) (hne : q ≠ p) (hpre : ¬ q <+: p) :
    statExists (writeFile fs p d) q = false := by
  unfold statExists fileExists dirExists at h
  unfold statExists fileExists dirExists writeFile
  simp only
  simp only [Bool.or_eq_false_iff] at h ⊢
  refine ⟨?_, h.2.1, ?_⟩
  · rw [Bool.eq_false_iff]
    intro hany
    rw [List.any_append] at hany
    rcases Bool.or_eq_true_iff.mp hany with h1 | h1
    · rw [any_of_any_filter _ _ _ h1] at h
      exact absurd h.1 (by simp)
    · obtain ⟨e, he, hpe⟩ := List.any_eq_true.mp h1
      have : e = (p, d) := by simpa using he
      rw [this] at hpe
      exact hne (beq_iff_eq.mp hpe).symm
  · rw [Bool.eq_false_iff]
    intro hany
    rw [List.any_append] at hany
    rcases Bool.or_eq_true_iff.mp hany with h1 | h1
    · rw [any_of_any_filter _ _ _ h1] at h
      exact absurd h.2.2 (by simp)
    · obtain ⟨e, he, hpe⟩ := List.any_eq_true.mp h1
      have he2 : e = (p, d) := by simpa using he
      rw [he2] at hpe
      have := Bool.and_eq_true_iff.mp hpe
      exact hpre ( List.isPrefixOf_iff_prefix.mp this.1)

theorem findFile_osRemove_ne (fs : FS) (p q : Path) (h : q ≠ p) :
    findFile (osRemove fs p).1 q = findFile fs q := by
  unfold osRemove
  by_cases h1 : fileExists fs p = true
  · rw [if_pos h1]
    exact findFile_removeFile_ne fs p q h
  · rw [if_neg h1]
    by_cases h2 : (dirExists fs p && !(hasChild fs p)) = true
    · rw [if_pos h2]
      rfl
    · rw [if_neg h2]

theorem statExists_osRemove_false (fs : FS) (p q : Path)
    (h : statExists fs q = false) : statExists (osRemove fs p).1 q = false := by
  unfold osRemove
  by_cases h1 : fileExists fs p = true
  · rw [if_pos h1]
    exact statExists_removeFile_false fs p q h
  · rw [if_neg h1]
    by_cases h2 : (dirExists fs p && !(hasChild fs p)) = true
    · rw [if_pos h2]
      exact statExists_dirsFilter_false fs _ q h
    · rw [if_neg h2]
      exact h

/-- SaveRequest writes the record to the resolved save location. -/
theorem findFile_SaveRequest_target (fs : FS) (path : Path) (cfg : RequestConfig) :
    findFile (SaveRequest fs path cfg) (savedRecordPath fs path)
      = some (FileData.reqData cfg) := by
  unfold SaveRequest savedRecordPath
  by_cases hd : statExists fs (requestDirPath path) = true
  · rw [if_pos hd, if_pos hd]
    exact findFile_writeFile_self _ _ _
  · rw [if_neg hd, if_neg hd]
    exact findFile_writeFile_self _ _ _

/-- SaveRequest leaves every other path untouched. -/
theorem findFile_SaveRequest_ne (fs : FS) (path : Path) (cfg : RequestConfig) (q : Path)
    (hq : q ≠ savedRecordPath fs path) :
    findFile (SaveRequest fs path cfg) q = findFile fs q := by
  unfold SaveRequest
  unfold savedRecordPath at hq
  by_cases hd : statExists fs (requestDirPath path) = true
  · rw [if_pos hd]
    rw [if_pos hd] at hq
    exact findFile_writeFile_ne _ _ _ _ hq
  · rw [if_neg hd]
    rw [if_neg hd] at hq
    exact findFile_writeFile_ne _ _ _ _ hq

/-! ### SetActiveBody (claim C5) -/

/-- C5 (corrected).  Provided the request record itself loads, a
SetActiveBody call fails with ValidationError exactly when the variant
file does not exist; when it exists, the record is persisted at the
resolved save location with activeBody set to the variant's name.  (When
the record does not load, the call fails with that load error instead,
which is the counterexample to the claim's unconditional "iff".) -/
theorem claim_C5_amended (fs : FS) (path : Path) (name : String) (cfg : RequestConfig)
    (hload : LoadRequest fs path = Except.ok cfg) :
    ((SetActiveBody fs path name).2 = Except.error Err.validationError
      ↔ statExists fs (bodyVariantPath path name) = false)
    ∧ (statExists fs (bodyVariantPath path name) = true →
        findFile (SetActiveBody fs path name).1 (savedRecordPath fs path)
          = some (FileData.reqData { cfg with activeBody := name })) := by
  have hsab : SetActiveBody fs path name =
      if statExists fs (bodyVariantPath path name) = true then
        (SaveRequest fs path { cfg with activeBody := name }, Except.ok ())
      else (fs, Except.error Err.validationError) := by
    unfold SetActiveBody
    rw [hload]
  rw [hsab]
  by_cases hstat : statExists fs (bodyVariantPath path name) = true
  · rw [if_pos hstat]
    refine ⟨⟨fun habs => absurd habs (by simp), fun hfalse => ?_⟩, fun _ => ?_⟩
    · rw [hstat] at hfalse
      exact absurd hfalse (by simp)
    · exact findFile_SaveRequest_target fs path _
  · rw [if_neg hstat]
    exact ⟨⟨fun _ => Bool.eq_false_iff.mpr hstat, fun _ => rfl⟩,
      fun htrue => absurd htrue hstat⟩

/-- C5, counterexample to the claim as stated: with no record on disk
the call fails with the load error (NotFound), not with ValidationError,
although the variant file does not exist either. -/
theorem claim_C5_counterexample :
    (SetActiveBody fsEmptyWorkspace ["users", "x"] "admin").2 = Except.error Err.notFound
    ∧ statExists fsEmptyWorkspace (bodyVariantPath ["users", "x"] "admin") = false
    ∧ Err.notFound ≠ Err.validationError := by
  decide

/-- C5, witness: the amended contract at a concrete flat record with an
existing variant file. -/
theorem claim_C5_witness :
    ((SetActiveBody fsFlatWithVariant ["users", "get-users"] "admin").2
        = Except.error Err.validationError
      ↔ statExists fsFlatWithVariant
          (bodyVariantPath ["users", "get-users"] "admin") = false)
    ∧ (statExists fsFlatWithVariant (bodyVariantPath ["users", "get-users"] "admin") = true →
        findFile (SetActiveBody fsFlatWithVariant ["users", "get-users"] "admin").1
            (savedRecordPath fsFlatWithVariant ["users", "get-users"])
          = some (FileData.reqData { exCfg with activeBody := "admin" })) :=
  claim_C5_amended fsFlatWithVariant ["users", "get-users"] "admin" exCfg (by decide)

/-! ### RemoveBody failure behaviour (claim C10) -/

/-- C10 (confirmed).  RemoveBody deletes the variant file before
reloading the record, so when the variant file exists but the record
then fails to load, the call returns that error while the variant file
is already gone and every other file — in particular the record file,
hence its activeBody — is untouched. -/
theorem claim_C10 (fs : FS) (path : Path) (name : String) (e : Err)
    (hfile : fileExists fs (bodyVariantPath path name) = true)
    (hload : LoadRequest (removeFileFS fs (bodyVariantPath path name)) path
      = Except.error e) :
    (RemoveBody fs path name).2 = Except.error e
    ∧ fileExists (RemoveBody fs path name).1 (bodyVariantPath path name) = false
    ∧ ∀ q, q ≠ bodyVariantPath path name →
        findFile (RemoveBody fs path name).1 q = findFile fs q := by
  have hstat : statExists fs (bodyVariantPath path name) = true := by
    unfold statExists
    rw [hfile]
    rfl
  unfold RemoveBody
  rw [if_pos hstat]
  unfold osRemove
  rw [if_pos hfile]
  simp only
  unfold removeBodyAfter
  rw [hload]
  refine ⟨rfl, ?_, ?_⟩
  · exact fileExists_removeFile_self fs _
  · intro q hq
    exact findFile_removeFile_ne fs _ q hq

/-- C10, witness: a variant file with no record at all; the call errors
with NotFound, the variant is gone, everything else untouched. -/
theorem claim_C10_witness :
    (RemoveBody fsVariantNoRecord ["users", "pu"] "admin").2 = Except.error Err.notFound
    ∧ fileExists (RemoveBody fsVariantNoRecord ["users", "pu"] "admin").1
        (bodyVariantPath ["users", "pu"] "admin") = false
    ∧ ∀ q, q ≠ bodyVariantPath ["users", "pu"] "admin" →
        findFile (RemoveBody fsVariantNoRecord ["users", "pu"] "admin").1 q
          = findFile fsVariantNoRecord q :=
  claim_C10 fsVariantNoRecord ["users", "pu"] "admin" Err.notFound (by decide) (by decide)

/-! ### Path distinctness and RemoveBody (claim C4) -/

theorem withJsonExt_length : ∀ (p : Path), (withJsonExt p).length = p.length
  | [] => rfl
  | [_] => rfl
  | x :: y :: rest => by
    simp only [withJsonExt, List.length_cons, withJsonExt_length (y :: rest)]

theorem withJsonExt_ne_self : ∀ (p : Path), p ≠ [] → withJsonExt p ≠ p
  | [], h => absurd rfl h
  | [x], _ => by
    simp only [withJsonExt, ne_eq, List.cons.injEq, and_true]
    intro h
    have hlen := congrArg String.length h
    rw [String.length_append] at hlen
    have h5 : (".json" : String).length = 5 := by decide
    rw [h5] at hlen
    omega
  | x :: y :: rest, _ => by
    simp only [withJsonExt, ne_eq, List.cons.injEq, true_and]
    intro h
    exact withJsonExt_ne_self (y :: rest) (by simp) h

/-- The flat record file is neither equal to nor an ancestor of any
entry directly inside the request's directory. -/
theorem flat_not_below (path : Path) (hp : path ≠ []) (z : String) :
    flatRequestPath path ≠ requestDirPath path ++ [z]
    ∧ ¬ flatRequestPath path <+: requestDirPath path ++ [z] := by
  constructor
  · intro heq
    have hlen := congrArg List.length heq
    simp only [flatRequestPath, requestDirPath, requestsRoot, List.length_append,
      List.length_cons, List.length_singleton, withJsonExt_length] at hlen
    omega
  · intro hpre
    have hpre2 : withJsonExt path <+: path ++ [z] := by
      have : flatRequestPath path = "requests" :: withJsonExt path := rfl
      rw [this] at hpre
      have hthat : requestDirPath path ++ [z] = "requests" :: (path ++ [z]) := by
        simp [requestDirPath, requestsRoot]
      rw [hthat] at hpre
      exact (List.cons_prefix_cons.mp hpre).2
    have htake := List.prefix_iff_eq_take.mp hpre2
    rw [withJsonExt_length, List.take_left] at htake
    exact withJsonExt_ne_self path hp htake

/-- Distinct variant names give distinct files in the request's
directory; in particular a variant not named "request" is not the
directory-layout record file. -/
theorem record_ne_variant (path : Path) (name : String) (hn : name ≠ "request") :
    dirRequestFilePath path ≠ bodyVariantPath path name := by
  intro heq
  unfold dirRequestFilePath bodyVariantPath at heq
  have h2 := List.append_cancel_left heq
  have h3 : ("request.json" : String) = name ++ ".json" := by simpa using h2
  have h4 := congrArg String.data h3
  rw [String.data_append] at h4
  have h5 : ("request.json" : String).data = "request".data ++ ".json".data := by decide
  rw [h5] at h4
  have h6 := List.append_cancel_right h4
  exact hn (String.ext h6).symm

theorem LoadRequest_dir_of (fs : FS) (path : Path) (cfg : RequestConfig)
    (hflat : statExists fs (flatRequestPath path) = false)
    (hrec : findFile fs (dirRequestFilePath path) = some (FileData.reqData cfg)) :
    LoadRequest fs path = Except.ok cfg := by
  unfold LoadRequest requestRecordPath
  rw [if_neg (by simp [hflat]), hrec]

theorem LoadRequest_dir_inv (fs : FS) (path : Path) (cfg : RequestConfig)
    (hflat : statExists fs (flatRequestPath path) = false)
    (hload : LoadRequest fs path = Except.ok cfg) :
    findFile fs (dirRequestFilePath path) = some (FileData.reqData cfg) := by
  unfold LoadRequest requestRecordPath at hload
  rw [if_neg (by simp [hflat])] at hload
  cases hf : findFile fs (dirRequestFilePath path) with
  | none => rw [hf] at hload; exact absurd hload (by simp)
  | some d =>
    rw [hf] at hload
    cases d with
    | reqData c =>
      have hc : c = cfg := by simpa using hload
      rw [hc]
    | envData e => exact absurd hload (by simp)
    | rawData s => exact absurd hload (by simp)

theorem load_after_save_dir (fs : FS) (path : Path) (cfg2 : RequestConfig)
    (hp : path ≠ [])
    (hflat : statExists fs (flatRequestPath path) = false)
    (hdir : statExists fs (requestDirPath path) = true) :
    LoadRequest (SaveRequest fs path cfg2) path = Except.ok cfg2 := by
  unfold SaveRequest
  rw [if_pos hdir]
  refine LoadRequest_dir_of _ path cfg2 ?_ (findFile_writeFile_self _ _ _)
  exact statExists_writeFile_false fs _ _ _ hflat
    (flat_not_below path hp "request.json").1 (flat_not_below path hp "request.json").2

theorem removeBodyAfter_ok (fs1 : FS) (path : Path) (name : String) (cfg : RequestConfig)
    (hload1 : LoadRequest fs1 path = Except.ok cfg) :
    removeBodyAfter fs1 path name =
      (if cfg.activeBody = name then
        (SaveRequest fs1 path { cfg with activeBody := "" }, Except.ok ())
      else (fs1, Except.ok ())) := by
  unfold removeBodyAfter
  rw [hload1]

theorem removeBodyAfter_err (fs1 : FS) (path : Path) (name : String) (e : Err)
    (hload1 : LoadRequest fs1 path = Except.error e) :
    removeBodyAfter fs1 path name = (fs1, Except.error e) := by
  unfold removeBodyAfter
  rw [hload1]

theorem RemoveBody_eq_after (fs : FS) (path : Path) (name : String) (fs1 : FS)
    (hstatv : statExists fs (bodyVariantPath path name) = true)
    (hrem : osRemove fs (bodyVariantPath path name) = (fs1, true)) :
    RemoveBody fs path name = removeBodyAfter fs1 path name := by
  unfold RemoveBody
  rw [if_pos hstatv, hrem]

/-- C4 (corrected).  For a request stored in the directory layout (no
flat record file exists for the path), a successful RemoveBody of the
active variant leaves activeBody = "" in the reloaded record, and
removing a non-active variant leaves the record unchanged.  (When a flat
record file coexists with the variant directory — the state SetActiveBody
itself creates for a flat request that acquired variants — the cleared
record is saved to the directory layout while reloads read the flat
file, so the stale name persists; see the counterexample.) -/
theorem claim_C4_amended (fs : FS) (path : Path) (name : String) (cfg : RequestConfig)
    (hp : path ≠ [])
    (hflat : statExists fs (flatRequestPath path) = false)
    (hload : LoadRequest fs path = Except.ok cfg)
    (hok : (RemoveBody fs path name).2 = Except.ok ()) :
    LoadRequest (RemoveBody fs path name).1 path
      = Except.ok (if cfg.activeBody = name then { cfg with activeBody := "" } else cfg) := by
  have hrec := LoadRequest_dir_inv fs path cfg hflat hload
  by_cases hstatv : statExists fs (bodyVariantPath path name) = true
  case neg =>
    exfalso
    unfold RemoveBody at hok
    rw [if_neg hstatv] at hok
    exact absurd hok (by simp)
  case pos =>
  by_cases hfe : fileExists fs (bodyVariantPath path name) = true
  · -- the variant was a regular file and was removed
    have hrem : osRemove fs (bodyVariantPath path name)
        = (removeFileFS fs (bodyVariantPath path name), true) := by
      unfold osRemove
      rw [if_pos hfe]
    have h1flat : statExists (removeFileFS fs (bodyVariantPath path name))
        (flatRequestPath path) = false :=
      statExists_removeFile_false fs _ _ hflat
    by_cases hname : name = "request"
    · exfalso
      have hvr : dirRequestFilePath path = bodyVariantPath path name := by
        rw [hname]
        unfold dirRequestFilePath bodyVariantPath
        have hrq : ("request" : String) ++ ".json" = "request.json" := by decide
        rw [hrq]
      have hload1 : LoadRequest (removeFileFS fs (bodyVariantPath path name)) path
          = Except.error Err.notFound := by
        unfold LoadRequest requestRecordPath
        rw [if_neg (by simp [h1flat]), hvr, findFile_removeFile_self]
      rw [RemoveBody_eq_after fs path name _ hstatv hrem,
        removeBodyAfter_err _ path name _ hload1] at hok
      exact absurd hok (by simp)
    · have h1rec : findFile (removeFileFS fs (bodyVariantPath path name))
          (dirRequestFilePath path) = some (FileData.reqData cfg) := by
        rw [findFile_removeFile_ne fs _ _ (record_ne_variant path name hname)]
        exact hrec
      have hload1 : LoadRequest (removeFileFS fs (bodyVariantPath path name)) path
          = Except.ok cfg := LoadRequest_dir_of _ path cfg h1flat h1rec
      rw [RemoveBody_eq_after fs path name _ hstatv hrem,
        removeBodyAfter_ok _ path name cfg hload1]
      have hdir1 : statExists (removeFileFS fs (bodyVariantPath path name))
          (requestDirPath path) = true := by
        unfold statExists
        rw [dirExists_of_file_below _ (requestDirPath path) "request.json" _ h1rec]
        simp
      by_cases hab : cfg.activeBody = name
      · rw [if_pos hab, if_pos hab]
        exact load_after_save_dir _ path _ hp h1flat hdir1
      · rw [if_neg hab, if_neg hab]
        exact hload1
  · -- the variant path was an (empty) directory
    have hfe2 : fileExists fs (bodyVariantPath path name) = false := Bool.eq_false_iff.mpr hfe
    by_cases hd2 : (dirExists fs (bodyVariantPath path name)
        && !(hasChild fs (bodyVariantPath path name))) = true
    · have hrem : osRemove fs (bodyVariantPath path name)
          = ({ fs with
                dirs := fs.dirs.filter (fun d => !(d == bodyVariantPath path name)) },
             true) := by
        unfold osRemove
        rw [if_neg (by simp [hfe2]), if_pos hd2]
      have h1flat : statExists
          { fs with dirs := fs.dirs.filter (fun d => !(d == bodyVariantPath path name)) }
          (flatRequestPath path) = false :=
        statExists_dirsFilter_false fs _ _ hflat
      have h1rec : findFile
          { fs with dirs := fs.dirs.filter (fun d => !(d == bodyVariantPath path name)) }
          (dirRequestFilePath path) = some (FileData.reqData cfg) := hrec
      have hload1 : LoadRequest
          { fs with dirs := fs.dirs.filter (fun d => !(d == bodyVariantPath path name)) }
          path = Except.ok cfg := LoadRequest_dir_of _ path cfg h1flat h1rec
      rw [RemoveBody_eq_after fs path name _ hstatv hrem,
        removeBodyAfter_ok _ path name cfg hload1]
      have hdir1 : statExists
          { fs with dirs := fs.dirs.filter (fun d => !(d == bodyVariantPath path name)) }
          (requestDirPath path) = true := by
        unfold statExists
        rw [dirExists_of_file_below _ (requestDirPath path) "request.json" _ h1rec]
        simp
      by_cases hab : cfg.activeBody = name
      · rw [if_pos hab, if_pos hab]
        exact load_after_save_dir _ path _ hp h1flat hdir1
      · rw [if_neg hab, if_neg hab]
        exact hload1
    · exfalso
      have hrem : osRemove fs (bodyVariantPath path name) = (fs, false) := by
        unfold osRemove
        rw [if_neg (by simp [hfe2]), if_neg hd2]
      unfold RemoveBody at hok
      rw [if_pos hstatv, hrem] at hok
      exact absurd hok (by simp)

/-- C4, counterexample to the claim as stated: a flat record (activeBody
"admin") coexists with the variant directory holding admin.json.
RemoveBody succeeds, yet reloading the record from disk still shows
activeBody = "admin", because the clear was persisted to the
directory-layout file while loads prefer the flat file. -/
theorem claim_C4_counterexample :
    (RemoveBody fsDualLayout ["users", "get-users"] "admin").2 = Except.ok ()
    ∧ (LoadRequest fsDualLayout ["users", "get-users"]).map (fun c => c.activeBody)
        = Except.ok "admin"
    ∧ (LoadRequest (RemoveBody fsDualLayout ["users", "get-users"] "admin").1
        ["users", "get-users"]).map (fun c => c.activeBody) = Except.ok "admin" := by
  decide

/-- C4, witness: a directory-layout request whose active variant is
removed; the reloaded record shows activeBody = "". -/
theorem claim_C4_witness :
    LoadRequest (RemoveBody fsDirLayout ["users", "pu"] "admin").1 ["users", "pu"]
      = Except.ok { exCfg with activeBody := "" } := by
  have h := claim_C4_amended fsDirLayout ["users", "pu"] "admin" exCfg
    (by decide) (by decide) (by decide) (by decide)
  rw [h]
  decide

/-! ### Auth application (claim C9) -/

theorem applyAuth_id (auth : List (String × String)) (hauth : authInactive auth) :
    ∀ h, applyAuth auth h = h := by
  intro h
  unfold applyAuth
  rcases hauth with h1 | h1 | ⟨t, ht, hb, hba, hak⟩ | ⟨ht, htok⟩ | ⟨ht, hkey⟩
  · rw [h1]
  · simp [h1]
  · simp only [ht]
    by_cases htt : t = ""
    · simp [htt]
    · rw [if_pos htt, if_neg hb, if_neg hba, if_neg hak]
  · simp only [ht]
    rw [if_pos trivial]
    rcases htok with h2 | h2 <;> simp [h2]
  · simp only [ht]
    rw [if_pos trivial]
    rcases hkey with h2 | h2 | h2 | h2
    · simp [h2]
    · simp [h2]
    · cases hk : lookupStr auth "key" with
      | none => simp [hk]
      | some k => simp [hk, h2]
    · cases hk : lookupStr auth "key" with
      | none => simp [hk]
      | some k => simp [hk, h2]

/-- C9 (confirmed).  For an auth descriptor whose type is absent, empty
or unrecognised — or bearer without a token, or api-key without a key or
header name — execution applies no authentication header at all: the
resolved headers are exactly the environment/request merge, and
resolution succeeds with no error for the unrecognised type. -/
theorem claim_C9 (fs : FS) (path : Path) (envName : String) (cfg : RequestConfig)
    (env : Environment)
    (hload : LoadRequest fs path = Except.ok cfg)
    (henv : LoadEnvironment fs envName = Except.ok env)
    (hauth : authInactive env.auth) :
    (∀ hdrs, applyAuth env.auth hdrs = hdrs)
    ∧ ∃ d, ExecuteRequest fs path envName = Except.ok d
        ∧ d.headers = resolveHeaders env.headers cfg.headers := by
  refine ⟨applyAuth_id env.auth hauth,
    ⟨_, ExecuteRequest_eq fs path envName cfg env hload henv, ?_⟩⟩
  exact applyAuth_id env.auth hauth _

/-- C9, witness: an environment whose auth type is "digest" (with a
token present); no auth header is applied and execution resolves. -/
theorem claim_C9_witness :
    (∀ hdrs, applyAuth exEnvDigest.auth hdrs = hdrs)
    ∧ ∃ d, ExecuteRequest fsDigestAuth ["users", "get-users"] "dev" = Except.ok d
        ∧ d.headers = resolveHeaders exEnvDigest.headers exCfg.headers :=
  claim_C9 fsDigestAuth ["users", "get-users"] "dev" exCfg exEnvDigest
    (by decide) (by decide)
    (Or.inr (Or.inr (Or.inl ⟨"digest", by decide, by decide, by decide, by decide⟩)))

/-! ### Workspace seeding (claim C8) -/

theorem ne_of_head (a b : String) (l1 l2 : List String) (h : a ≠ b) :
    (a :: l1) ≠ (b :: l2) := by
  intro he
  injection he with h1 _
  exact h h1

theorem fileExists_false_of_statExists_false (fs : FS) (p : Path)
    (h : statExists fs p = false) : fileExists fs p = false := by
  unfold statExists at h
  exact (Bool.or_eq_false_iff.mp h).1

theorem findFile_none_of_fileExists_false (fs : FS) (p : Path)
    (h : fileExists fs p = false) : findFile fs p = none := by
  unfold fileExists at h
  unfold findFile
  rw [List.find?_eq_none.mpr]
  · rfl
  · intro e he hpe
    have := List.any_eq_false.mp h e he
    exact this hpe

theorem fileExists_of_findFile_some (fs : FS) (p : Path) (d : FileData)
    (h : findFile fs p = some d) : fileExists fs p = true := by
  obtain ⟨e, he, hp1, _⟩ := findFile_some_mem fs p d h
  exact List.any_eq_true.mpr ⟨e, he, by simp [hp1]⟩

theorem requestsRoot_not_prefix_env (n : String) :
    requestsRoot.isPrefixOf (envFilePath n) = false := by
  show (("requests" == "environments") && List.isPrefixOf [] [n ++ ".json"]) = false
  rw [(by decide : (("requests" : String) == "environments") = false)]
  rfl

theorem filter_id_of_fileExists_false (fs : FS) (p : Path)
    (h : fileExists fs p = false) :
    fs.files.filter (fun f => !(f.1 == p)) = fs.files := by
  refine List.filter_eq_self.mpr ?_
  intro f hf
  have := List.any_eq_false.mp h f hf
  simpa using this

theorem findFile_writeEnv_pres (fs : FS) (name : String) (e : Environment)
    (p : Path) (c : FileData) (h : findFile fs p = some c) :
    findFile (writeEnvIfAbsent fs name e) p = some c := by
  unfold writeEnvIfAbsent
  by_cases hs : statExists fs (envFilePath name) = true
  · rw [if_pos hs]
    exact h
  · rw [if_neg hs]
    have hne : p ≠ envFilePath name := by
      intro heq
      rw [heq] at h
      rw [findFile_none_of_fileExists_false fs _ (fileExists_false_of_statExists_false fs _
        (Bool.eq_false_iff.mpr hs))] at h
      exact absurd h (by simp)
    rw [findFile_writeFile_ne _ _ _ _ hne]
    exact h

theorem findFile_writeEnv_other (fs : FS) (name : String) (e : Environment)
    (p : Path) (h : p ≠ envFilePath name) :
    findFile (writeEnvIfAbsent fs name e) p = findFile fs p := by
  unfold writeEnvIfAbsent
  by_cases hs : statExists fs (envFilePath name) = true
  · rw [if_pos hs]
  · rw [if_neg hs]
    exact findFile_writeFile_ne _ _ _ _ h

theorem fileExists_writeEnv_self (fs : FS) (name : String) (e : Environment)
    (h : statExists fs (envFilePath name) = false) :
    fileExists (writeEnvIfAbsent fs name e) (envFilePath name) = true := by
  unfold writeEnvIfAbsent
  rw [if_neg (by simp [h])]
  exact fileExists_of_findFile_some _ _ _ (findFile_writeFile_self _ _ _)

theorem statExists_writeEnv_false (fs : FS) (name : String) (e : Environment)
    (q : Path) (h : statExists fs q = false) (hne : q ≠ envFilePath name)
    (hpre : ¬ q <+: envFilePath name) :
    statExists (writeEnvIfAbsent fs name e) q = false := by
  unfold writeEnvIfAbsent
  by_cases hs : statExists fs (envFilePath name) = true
  · rw [if_pos hs]
    exact h
  · rw [if_neg hs]
    exact statExists_writeFile_false fs _ _ _ h hne hpre

theorem dirHasEntries_writeEnv (fs : FS) (name : String) (e : Environment) :
    dirHasEntries (writeEnvIfAbsent fs name e) requestsRoot
      = dirHasEntries fs requestsRoot := by
  unfold writeEnvIfAbsent
  by_cases hs : statExists fs (envFilePath name) = true
  · rw [if_pos hs]
  · rw [if_neg hs]
    unfold dirHasEntries writeFile
    simp only
    rw [filter_id_of_fileExists_false fs _ (fileExists_false_of_statExists_false fs _
      (Bool.eq_false_iff.mpr hs))]
    rw [List.any_append]
    have hnew : List.any [(envFilePath name, FileData.envData e)]
        (fun f => requestsRoot.isPrefixOf f.1 && !(f.1 == requestsRoot)) = false := by
      simp only [List.any_cons, List.any_nil, Bool.or_false]
      rw [requestsRoot_not_prefix_env]
      rfl
    rw [hnew, Bool.or_false]

theorem findFile_some_of_fileExists (fs : FS) (p : Path)
    (h : fileExists fs p = true) : ∃ d, findFile fs p = some d := by
  unfold fileExists at h
  unfold findFile
  have hs : (fs.files.find? (fun f => f.1 == p)).isSome := by
    rw [List.find?_isSome]
    exact List.any_eq_true.mp h
  obtain ⟨e, he⟩ := Option.isSome_iff_exists.mp hs
  exact ⟨e.2, by rw [he]; rfl⟩

theorem dirHasEntries_of_file (fs : FS) (q : Path)
    (hq : fileExists fs q = true)
    (hpre : (requestsRoot.isPrefixOf q && !(q == requestsRoot)) = true) :
    dirHasEntries fs requestsRoot = true := by
  unfold fileExists at hq
  obtain ⟨f, hf, hbe⟩ := List.any_eq_true.mp hq
  unfold dirHasEntries
  refine Bool.or_eq_true_iff.mpr (Or.inl (List.any_eq_true.mpr ⟨f, hf, ?_⟩))
  rw [beq_iff_eq.mp hbe]
  exact hpre

theorem statExists_requestDir_sample_false (fs2 : FS)
    (hemp : dirHasEntries fs2 requestsRoot = false) :
    statExists (mkdirAll fs2 (requestsRoot ++ ["users"]))
      (requestDirPath ["users", "get-users"]) = false := by
  unfold dirHasEntries at hemp
  have hempf := (Bool.or_eq_false_iff.mp hemp).1
  have hempd := (Bool.or_eq_false_iff.mp hemp).2
  have hrootpre : requestsRoot <+: requestDirPath ["users", "get-users"] :=
    List.isPrefixOf_iff_prefix.mp (by decide)
  unfold statExists fileExists dirExists mkdirAll
  simp only
  rw [Bool.or_eq_false_iff]
  refine ⟨?_, ?_⟩
  · rw [Bool.eq_false_iff]
    intro hany
    obtain ⟨f, hf, hpf⟩ := List.any_eq_true.mp hany
    have hf1 : f.1 = requestDirPath ["users", "get-users"] := beq_iff_eq.mp hpf
    have hcontra : fs2.files.any
        (fun g => requestsRoot.isPrefixOf g.1 && !(g.1 == requestsRoot)) = true :=
      List.any_eq_true.mpr ⟨f, hf, by rw [hf1]; decide⟩
    rw [hcontra] at hempf
    exact absurd hempf (by simp)
  · rw [Bool.or_eq_false_iff]
    refine ⟨?_, ?_⟩
    · rw [Bool.eq_false_iff]
      intro hany
      rw [List.any_cons] at hany
      rcases Bool.or_eq_true_iff.mp hany with h1 | h1
      · exact absurd h1 (by decide)
      · obtain ⟨dd, hd, hpd⟩ := List.any_eq_true.mp h1
        have hpd2 : requestDirPath ["users", "get-users"] <+: dd :=
          List.isPrefixOf_iff_prefix.mp hpd
        have hroot : requestsRoot <+: dd := hrootpre.trans hpd2
        have hlen : 3 ≤ dd.length := by
          simpa [requestDirPath, requestsRoot] using hpd2.length_le
        have hddne : dd ≠ requestsRoot := by
          intro he
          rw [he] at hlen
          simp [requestsRoot] at hlen
        have hcon : fs2.dirs.any
            (fun q => requestsRoot.isPrefixOf q && !(q == requestsRoot)) = true := by
          refine List.any_eq_true.mpr ⟨dd, hd, ?_⟩
          rw [Bool.and_eq_true_iff]
          exact ⟨ List.isPrefixOf_iff_prefix.mpr hroot, by simp [hddne]⟩
        rw [hcon] at hempd
        exact absurd hempd (by simp)
    · rw [Bool.eq_false_iff]
      intro hany
      obtain ⟨f, hf, hpf⟩ := List.any_eq_true.mp hany
      have h1 := Bool.and_eq_true_iff.mp hpf
      have hpd2 : requestDirPath ["users", "get-users"] <+: f.1 :=
        List.isPrefixOf_iff_prefix.mp h1.1
      have hroot : requestsRoot <+: f.1 := hrootpre.trans hpd2
      have hlen : 3 ≤ f.1.length := by
        simpa [requestDirPath, requestsRoot] using hpd2.length_le
      have hfne : f.1 ≠ requestsRoot := by
        intro he
        rw [he] at hlen
        simp [requestsRoot] at hlen
      have hcontra : fs2.files.any
          (fun g => requestsRoot.isPrefixOf g.1 && !(g.1 == requestsRoot)) = true := by
        refine List.any_eq_true.mpr ⟨f, hf, ?_⟩
        rw [Bool.and_eq_true_iff]
        exact ⟨ List.isPrefixOf_iff_prefix.mpr hroot, by simp [hfne]⟩
      rw [hcontra] at hempf
      exact absurd hempf (by simp)

/-- C8 (corrected).  Seeding never overwrites or removes existing
content, and the sample request is written exactly when the request root
is empty; but each default environment file is written whenever that
specific file is absent — even when the environment root already holds
other files (the counterexample), not "only if the environment root
contains no files" as claimed. -/
theorem claim_C8_amended (fs : FS) :
    (∀ p c, findFile fs p = some c → findFile (initializeDefaultFiles fs) p = some c)
    ∧ (statExists fs (envFilePath "dev") = false →
        fileExists (initializeDefaultFiles fs) (envFilePath "dev") = true)
    ∧ (statExists fs (envFilePath "prod") = false →
        fileExists (initializeDefaultFiles fs) (envFilePath "prod") = true)
    ∧ (dirHasEntries fs requestsRoot = false →
        fileExists (initializeDefaultFiles fs) (flatRequestPath ["users", "get-users"]) = true)
    ∧ (dirHasEntries fs requestsRoot = true →
        ∀ p, requestsRoot.isPrefixOf p = true →
          findFile (initializeDefaultFiles fs) p = findFile fs p) := by
  have hdHE : dirHasEntries
      (writeEnvIfAbsent (writeEnvIfAbsent fs "dev" devEnv) "prod" prodEnv) requestsRoot
      = dirHasEntries fs requestsRoot := by
    rw [dirHasEntries_writeEnv, dirHasEntries_writeEnv]
  have henvne : ∀ n : String, ∀ p : Path, requestsRoot.isPrefixOf p = true →
      p ≠ envFilePath n := by
    intro n p hpre heq
    rw [heq, requestsRoot_not_prefix_env] at hpre
    exact absurd hpre (by simp)
  refine ⟨?_, ?_, ?_, ?_, ?_⟩
  · intro p c h
    have h2 := findFile_writeEnv_pres _ "prod" prodEnv p c
      (findFile_writeEnv_pres fs "dev" devEnv p c h)
    unfold initializeDefaultFiles seedSampleRequest
    by_cases hemp : dirHasEntries
        (writeEnvIfAbsent (writeEnvIfAbsent fs "dev" devEnv) "prod" prodEnv)
        requestsRoot = true
    · rw [if_pos hemp]
      exact h2
    · rw [if_neg hemp]
      have hempb : dirHasEntries
          (writeEnvIfAbsent (writeEnvIfAbsent fs "dev" devEnv) "prod" prodEnv)
          requestsRoot = false := Bool.eq_false_iff.mpr hemp
      have hempfs : dirHasEntries fs requestsRoot = false := by rw [← hdHE]; exact hempb
      have hsr := statExists_requestDir_sample_false _ hempb
      have hsrp : savedRecordPath
          (mkdirAll (writeEnvIfAbsent (writeEnvIfAbsent fs "dev" devEnv) "prod" prodEnv)
            (requestsRoot ++ ["users"])) ["users", "get-users"]
          = flatRequestPath ["users", "get-users"] := by
        unfold savedRecordPath
        rw [if_neg (by simp [hsr])]
      have hne : p ≠ savedRecordPath
          (mkdirAll (writeEnvIfAbsent (writeEnvIfAbsent fs "dev" devEnv) "prod" prodEnv)
            (requestsRoot ++ ["users"])) ["users", "get-users"] := by
        rw [hsrp]
        intro heq
        rw [heq] at h
        have := dirHasEntries_of_file fs _ (fileExists_of_findFile_some fs _ c h) (by decide)
        rw [this] at hempfs
        exact absurd hempfs (by simp)
      rw [findFile_SaveRequest_ne _ _ _ _ hne]
      exact h2
  · intro hdev
    have e2 : fileExists
        (writeEnvIfAbsent (writeEnvIfAbsent fs "dev" devEnv) "prod" prodEnv)
        (envFilePath "dev") = true := by
      obtain ⟨d1, hd1⟩ := findFile_some_of_fileExists _ _
        (fileExists_writeEnv_self fs "dev" devEnv hdev)
      exact fileExists_of_findFile_some _ _ d1
        (by rw [findFile_writeEnv_other _ "prod" prodEnv _ (by decide)]; exact hd1)
    obtain ⟨d2, hd2⟩ := findFile_some_of_fileExists _ _ e2
    unfold initializeDefaultFiles seedSampleRequest
    by_cases hemp : dirHasEntries
        (writeEnvIfAbsent (writeEnvIfAbsent fs "dev" devEnv) "prod" prodEnv)
        requestsRoot = true
    · rw [if_pos hemp]
      exact e2
    · rw [if_neg hemp]
      have hempb := Bool.eq_false_iff.mpr hemp
      have hsr := statExists_requestDir_sample_false _ hempb
      have hne : envFilePath "dev" ≠ savedRecordPath
          (mkdirAll (writeEnvIfAbsent (writeEnvIfAbsent fs "dev" devEnv) "prod" prodEnv)
            (requestsRoot ++ ["users"])) ["users", "get-users"] := by
        unfold savedRecordPath
        rw [if_neg (by simp [hsr])]
        exact ne_of_head _ _ _ _ (by decide)
      exact fileExists_of_findFile_some _ _ d2
        (by rw [findFile_SaveRequest_ne _ _ _ _ hne]; exact hd2)
  · intro hprod
    have hprod1 : statExists (writeEnvIfAbsent fs "dev" devEnv) (envFilePath "prod") = false :=
      statExists_writeEnv_false fs "dev" devEnv _ hprod (by decide)
        (fun hp => absurd (hp.eq_of_length (by decide)) (by decide))
    have e2 : fileExists
        (writeEnvIfAbsent (writeEnvIfAbsent fs "dev" devEnv) "prod" prodEnv)
        (envFilePath "prod") = true :=
      fileExists_writeEnv_self _ "prod" prodEnv hprod1
    obtain ⟨d2, hd2⟩ := findFile_some_of_fileExists _ _ e2
    unfold initializeDefaultFiles seedSampleRequest
    by_cases hemp : dirHasEntries
        (writeEnvIfAbsent (writeEnvIfAbsent fs "dev" devEnv) "prod" prodEnv)
        requestsRoot = true
    · rw [if_pos hemp]
      exact e2
    · rw [if_neg hemp]
      have hempb := Bool.eq_false_iff.mpr hemp
      have hsr := statExists_requestDir_sample_false _ hempb
      have hne : envFilePath "prod" ≠ savedRecordPath
          (mkdirAll (writeEnvIfAbsent (writeEnvIfAbsent fs "dev" devEnv) "prod" prodEnv)
            (requestsRoot ++ ["users"])) ["users", "get-users"] := by
        unfold savedRecordPath
        rw [if_neg (by simp [hsr])]
        exact ne_of_head _ _ _ _ (by decide)
      exact fileExists_of_findFile_some _ _ d2
        (by rw [findFile_SaveRequest_ne _ _ _ _ hne]; exact hd2)
  · intro hempt
    unfold initializeDefaultFiles seedSampleRequest
    rw [if_neg (by rw [hdHE, hempt]; simp)]
    have hsr := statExists_requestDir_sample_false
      (writeEnvIfAbsent (writeEnvIfAbsent fs "dev" devEnv) "prod" prodEnv)
      (by rw [hdHE]; exact hempt)
    unfold SaveRequest
    rw [if_neg (by simp [hsr])]
    exact fileExists_of_findFile_some _ _ _ (findFile_writeFile_self _ _ _)
  · intro hnon p hpre
    unfold initializeDefaultFiles seedSampleRequest
    rw [if_pos (by rw [hdHE]; exact hnon)]
    rw [findFile_writeEnv_other _ "prod" prodEnv p (henvne "prod" p hpre),
      findFile_writeEnv_other _ "dev" devEnv p (henvne "dev" p hpre)]

/-- C8, counterexample to the claim as stated: the environment root is
non-empty (it holds custom.json) yet construction still creates
dev.json, so "the two default environments are written only if the
environment root contains no files" fails. -/
theorem claim_C8_counterexample :
    dirHasEntries fsCustomEnvOnly environmentsRoot = true
    ∧ fileExists fsCustomEnvOnly (envFilePath "dev") = false
    ∧ fileExists (initializeDefaultFiles fsCustomEnvOnly) (envFilePath "dev") = true := by
  decide

/-- C8, witness: the amended seeding contract instantiated at the
workspace that already holds one custom environment. -/
theorem claim_C8_witness :
    fileExists (initializeDefaultFiles fsCustomEnvOnly) (envFilePath "prod") = true
    ∧ findFile (initializeDefaultFiles fsCustomEnvOnly) (envFilePath "custom")
        = some (FileData.envData exEnv)
    ∧ fileExists (initializeDefaultFiles fsCustomEnvOnly)
        (flatRequestPath ["users", "get-users"]) = true := by
  refine ⟨(claim_C8_amended fsCustomEnvOnly).2.2.1 (by decide), ?_, ?_⟩
  · exact (claim_C8_amended fsCustomEnvOnly).1 (envFilePath "custom")
      (FileData.envData exEnv) (by decide)
  · exact (claim_C8_amended fsCustomEnvOnly).2.2.2.1 (by decide)

/-! ### ListRequests (claim C6) -/

theorem find?_map_groupAdd (l : List (String × List String)) (k v : String) :
    (l.map (fun e => if e.1 == k then (e.1, e.2 ++ [v]) else e)).find? (fun e => e.1 == k)
      = (l.find? (fun e => e.1 == k)).map (fun e => (e.1, e.2 ++ [v])) := by
  induction l with
  | nil => rfl
  | cons e l ih =>
    by_cases he : e.1 = k
    · rw [List.map_cons, if_pos (by simp [he])]
      rw [List.find?_cons_of_pos _ (by simp [he]), List.find?_cons_of_pos _ (by simp [he])]
      rfl
    · rw [List.map_cons, if_neg (by simp [he])]
      rw [List.find?_cons_of_neg _ (by simp [he]), List.find?_cons_of_neg _ (by simp [he])]
      exact ih

theorem find?_map_groupAdd_ne (l : List (String × List String)) (k v k2 : String)
    (h : k2 ≠ k) :
    (l.map (fun e => if e.1 == k then (e.1, e.2 ++ [v]) else e)).find? (fun e => e.1 == k2)
      = l.find? (fun e => e.1 == k2) := by
  induction l with
  | nil => rfl
  | cons e l ih =>
    by_cases he : e.1 = k
    · rw [List.map_cons, if_pos (by simp [he])]
      have hne2 : ¬ e.1 = k2 := by rw [he]; exact Ne.symm h
      rw [List.find?_cons_of_neg _ (by simp [hne2]), List.find?_cons_of_neg _ (by simp [hne2])]
      exact ih
    · rw [List.map_cons, if_neg (by simp [he])]
      by_cases he2 : e.1 = k2
      · rw [List.find?_cons_of_pos _ (by simp [he2]), List.find?_cons_of_pos _ (by simp [he2])]
      · rw [List.find?_cons_of_neg _ (by simp [he2]), List.find?_cons_of_neg _ (by simp [he2])]
        exact ih

theorem groupGet_groupAdd (m : List (String × List String)) (k v k2 : String) :
    groupGet (groupAdd m k v) k2
      = if k2 = k then groupGet m k ++ [v] else groupGet m k2 := by
  unfold groupGet groupAdd
  by_cases hk2 : k2 = k
  · subst hk2
    by_cases ha : m.any (fun e => e.1 == k2) = true
    · rw [if_pos ha, if_pos rfl, find?_map_groupAdd]
      cases hf : m.find? (fun e => e.1 == k2) with
      | none =>
        exfalso
        obtain ⟨x, hx, hpx⟩ := List.any_eq_true.mp ha
        have := List.find?_eq_none.mp hf x hx
        exact this hpx
      | some e => simp
    · rw [if_neg ha, if_pos rfl, List.find?_append]
      have hnone : m.find? (fun e => e.1 == k2) = none :=
        List.find?_eq_none.mpr (fun x hx hpx => absurd (List.any_eq_true.mpr ⟨x, hx, hpx⟩) ha)
      rw [hnone]
      simp
  · by_cases ha : m.any (fun e => e.1 == k) = true
    · rw [if_pos ha, if_neg hk2, find?_map_groupAdd_ne _ _ _ _ hk2]
    · rw [if_neg ha, if_neg hk2, List.find?_append]
      have hone : List.find? (fun e => e.1 == k2) [(k, [v])] = none := by
        simp [Ne.symm hk2]
      rw [hone]
      cases m.find? (fun e => e.1 == k2) <;> rfl

theorem mem_groupGet_listStep (m : List (String × List String)) (f : Path × FileData)
    (k e : String) :
    e ∈ groupGet (listStep m f) k ↔ e ∈ groupGet m k ∨ contributes f k e := by
  unfold listStep contributes
  cases hrel : relUnderRequests f.1 with
  | none => simp
  | some rel =>
    simp only [Option.some.injEq]
    by_cases hends : strEndsWith (lastName rel) ".json" = true
    · rw [if_pos hends, groupGet_groupAdd]
      by_cases hk : k = groupKey rel
      · rw [if_pos hk, List.mem_append]
        subst hk
        simp [hends]
      · rw [if_neg hk]
        simp [hk]
    · rw [if_neg hends]
      simp [hends]

theorem mem_groupGet_foldl (l : List (Path × FileData)) (m : List (String × List String))
    (k e : String) :
    e ∈ groupGet (l.foldl listStep m) k ↔ e ∈ groupGet m k ∨ ∃ f ∈ l, contributes f k e := by
  induction l generalizing m with
  | nil =>
    rw [List.foldl_nil]
    constructor
    · exact fun h => Or.inl h
    · rintro (h | ⟨f, hf, _⟩)
      · exact h
      · exact absurd hf (List.not_mem_nil f)
  | cons f l ih =>
    rw [List.foldl_cons, ih, mem_groupGet_listStep]
    constructor
    · rintro ((h | h) | ⟨g, hg, hc⟩)
      · exact Or.inl h
      · exact Or.inr ⟨f, List.mem_cons_self _ _, h⟩
      · exact Or.inr ⟨g, List.mem_cons_of_mem _ hg, hc⟩
    · rintro (h | ⟨g, hg, hc⟩)
      · exact Or.inl (Or.inl h)
      · rcases List.mem_cons.mp hg with rfl | hg2
        · exact Or.inl (Or.inr hc)
        · exact Or.inr ⟨g, hg2, hc⟩

theorem relUnderRequests_some_iff (p : Path) (rel : Path) :
    relUnderRequests p = some rel ↔ p = requestsRoot ++ rel ∧ rel ≠ [] := by
  unfold relUnderRequests
  constructor
  · intro h
    by_cases hc : (requestsRoot.isPrefixOf p && decide (requestsRoot.length < p.length)) = true
    · rw [if_pos hc] at h
      have hrel : rel = p.drop requestsRoot.length := by simpa using h.symm
      have hand := Bool.and_eq_true_iff.mp hc
      obtain ⟨t, ht⟩ := List.isPrefixOf_iff_prefix.mp hand.1
      have hlt : requestsRoot.length < p.length := of_decide_eq_true hand.2
      constructor
      · rw [hrel, ← ht, List.drop_left]
      · intro hnil
        rw [hrel] at hnil
        have := congrArg List.length hnil
        rw [List.length_drop] at this
        simp at this
        omega
    · rw [if_neg hc] at h
      exact absurd h (by simp)
  · rintro ⟨hp, hnil⟩
    subst hp
    rw [if_pos ?hcond]
    case hcond =>
      rw [Bool.and_eq_true_iff]
      refine ⟨ List.isPrefixOf_iff_prefix.mpr ⟨rel, rfl⟩, decide_eq_true ?_⟩
      rw [List.length_append]
      have := List.length_pos.mpr hnil
      omega
    rw [List.drop_left]

/-- C6 (corrected).  ListRequests collects every .json file below the
request root — including directory-layout record files (listed as
<path>/request) and body-variant files, each of which appears as a
logical path of its own — grouped by the immediate parent directory,
with the sentinel group "root" for top-level files.  The claim's
exclusion of body variants does not hold (see the counterexample). -/
theorem claim_C6_amended (fs : FS) (k e : String) :
    e ∈ groupGet (ListRequests fs) k ↔
      ∃ rel d, (requestsRoot ++ rel, d) ∈ fs.files ∧ rel ≠ []
        ∧ strEndsWith (lastName rel) ".json" = true
        ∧ k = groupKey rel ∧ e = joinSlash (trimLastJson rel) := by
  unfold ListRequests
  rw [mem_groupGet_foldl]
  constructor
  · rintro (h | ⟨f, hf, rel, hrel, hends, hk, he⟩)
    · simp [groupGet] at h
    · obtain ⟨hp, hnil⟩ := (relUnderRequests_some_iff f.1 rel).mp hrel
      refine ⟨rel, f.2, ?_, hnil, hends, hk, he⟩
      rw [← hp]
      exact hf
  · rintro ⟨rel, d, hmem, hnil, hends, hk, he⟩
    exact Or.inr ⟨(requestsRoot ++ rel, d), hmem,
      rel, (relUnderRequests_some_iff _ rel).mpr ⟨rfl, hnil⟩, hends, hk, he⟩

/-- C6, counterexample to the claim as stated: for a directory-layout
request with one body variant, both the variant file and the record file
appear as logical paths in the listing, although the claim says neither
may appear. -/
theorem claim_C6_counterexample :
    "users/get-users/admin" ∈ groupGet (ListRequests fsDirWithVariant) "users/get-users"
    ∧ "users/get-users/request" ∈ groupGet (ListRequests fsDirWithVariant) "users/get-users" := by
  decide

/-! ### Variable substitution (claim C7) -/

theorem replaceAll_nil (pat rep : List Char) : replaceAll [] pat rep = [] := by
  rw [replaceAll]

theorem replaceAll_cons_nomatch (c : Char) (rest pat rep : List Char)
    (h : ¬ pat.isPrefixOf (c :: rest) = true) :
    replaceAll (c :: rest) pat rep = c :: replaceAll rest pat rep := by
  rw [replaceAll]
  rw [dif_neg (fun hc => h hc.2)]

theorem replaceAll_append_match (pat t rep : List Char) (hne : pat ≠ []) :
    replaceAll (pat ++ t) pat rep = rep ++ replaceAll t pat rep := by
  cases pat with
  | nil => exact absurd rfl hne
  | cons p pr =>
    rw [List.cons_append, replaceAll]
    rw [dif_pos ⟨hne, List.isPrefixOf_iff_prefix.mpr ⟨t, by rw [List.cons_append]⟩⟩]
    have hd : (p :: (pr ++ t)).drop (p :: pr).length = t := by
      rw [List.length_cons, List.drop_succ_cons, List.drop_left]
    rw [hd]

theorem braceFree_spec (s : String) (h : braceFree s = true) :
    ∀ c ∈ s.data, ¬ c = '\x7b' ∧ ¬ c = '\x7d' := by
  intro c hc
  have hcc := List.all_eq_true.mp h c hc
  constructor <;> intro he <;> subst he <;> simp at hcc

theorem replaceAll_append_noBrace (u t pt rep : List Char)
    (hu : ∀ c ∈ u, ¬ c = '\x7b') :
    replaceAll (u ++ t) ('\x7b' :: pt) rep = u ++ replaceAll t ('\x7b' :: pt) rep := by
  induction u with
  | nil => simp
  | cons c u ih =>
    have hc : ¬ c = '\x7b' := hu c (List.mem_cons_self _ _)
    have hnm : ¬ ('\x7b' :: pt).isPrefixOf (c :: (u ++ t)) = true := by
      simp only [List.isPrefixOf, Bool.and_eq_true]
      intro hcc
      exact hc (Eq.symm (by simpa using hcc.1))
    rw [List.cons_append, replaceAll_cons_nomatch _ _ _ _ hnm,
      ih (fun d hd => hu d (List.mem_cons_of_mem _ hd))]
    rfl

theorem key_mismatch (a : List Char) : ∀ (b x y : List Char),
    (∀ c ∈ a, ¬ c = '\x7d') → (∀ c ∈ b, ¬ c = '\x7d') → a ≠ b →
    ((a ++ '\x7d' :: '\x7d' :: x).isPrefixOf (b ++ '\x7d' :: '\x7d' :: y)) = false := by
  induction a with
  | nil =>
    intro b x y _ hnb hne
    cases b with
    | nil => exact absurd rfl hne
    | cons c b2 =>
      have hc := hnb c (List.mem_cons_self _ _)
      simp only [List.nil_append, List.cons_append, List.isPrefixOf, Bool.and_eq_false_iff]
      left
      exact beq_eq_false_iff_ne.mpr (fun he => hc he.symm)
  | cons c a2 ih =>
    intro b x y hna hnb hne
    cases b with
    | nil =>
      have hc := hna c (List.mem_cons_self _ _)
      simp only [List.cons_append, List.nil_append, List.isPrefixOf, Bool.and_eq_false_iff]
      left
      exact beq_eq_false_iff_ne.mpr hc
    | cons d b2 =>
      by_cases hcd : c = d
      · subst hcd
        simp only [List.cons_append, List.isPrefixOf, beq_self_eq_true, Bool.true_and]
        exact ih b2 x y (fun e he => hna e (List.mem_cons_of_mem _ he))
          (fun e he => hnb e (List.mem_cons_of_mem _ he))
          (fun he => hne (by rw [he]))
      · simp only [List.cons_append, List.isPrefixOf, Bool.and_eq_false_iff]
        left
        exact beq_eq_false_iff_ne.mpr hcd

theorem placeholder_data (k : String) :
    (placeholder k).data = '\x7b' :: '\x7b' :: (k.data ++ ['\x7d', '\x7d']) := by
  unfold placeholder
  rw [String.data_append, String.data_append]
  rfl

theorem renderURL_data_lit (s : String) (rest : List URLSeg) :
    (renderURL (URLSeg.lit s :: rest)).data = s.data ++ (renderURL rest).data := by
  show (renderSeg (URLSeg.lit s) ++ renderURL rest).data = _
  rw [String.data_append]
  rfl

theorem renderURL_data_ph (k2 : String) (rest : List URLSeg) :
    (renderURL (URLSeg.ph k2 :: rest)).data
      = '\x7b' :: '\x7b' :: (k2.data ++ '\x7d' :: '\x7d' :: (renderURL rest).data) := by
  show (renderSeg (URLSeg.ph k2) ++ renderURL rest).data = _
  rw [String.data_append]
  show (placeholder k2).data ++ _ = _
  rw [placeholder_data]
  simp [List.append_assoc]

theorem replaceAll_ph_match (kd t rep : List Char) :
    replaceAll ('\x7b' :: '\x7b' :: (kd ++ '\x7d' :: '\x7d' :: t))
        ('\x7b' :: '\x7b' :: (kd ++ ['\x7d', '\x7d'])) rep
      = rep ++ replaceAll t ('\x7b' :: '\x7b' :: (kd ++ ['\x7d', '\x7d'])) rep := by
  have h := replaceAll_append_match ('\x7b' :: '\x7b' :: (kd ++ ['\x7d', '\x7d'])) t rep (by simp)
  simpa [List.append_assoc] using h

theorem replaceAll_ph_skip (kd k2d t rep : List Char)
    (hka : ∀ c ∈ kd, ¬ c = '\x7b' ∧ ¬ c = '\x7d')
    (hkb : ∀ c ∈ k2d, ¬ c = '\x7b' ∧ ¬ c = '\x7d')
    (hne : kd ≠ k2d) :
    replaceAll ('\x7b' :: '\x7b' :: (k2d ++ '\x7d' :: '\x7d' :: t))
        ('\x7b' :: '\x7b' :: (kd ++ ['\x7d', '\x7d'])) rep
      = '\x7b' :: '\x7b' :: (k2d ++ '\x7d' :: '\x7d' ::
          replaceAll t ('\x7b' :: '\x7b' :: (kd ++ ['\x7d', '\x7d'])) rep) := by
  have h0 : ¬ ('\x7b' :: '\x7b' :: (kd ++ ['\x7d', '\x7d'])).isPrefixOf
      ('\x7b' :: '\x7b' :: (k2d ++ '\x7d' :: '\x7d' :: t)) = true := by
    simp only [List.isPrefixOf, beq_self_eq_true, Bool.true_and]
    have hmm := key_mismatch kd k2d [] t (fun c hc => (hka c hc).2) (fun c hc => (hkb c hc).2) hne
    intro hcon
    rw [show kd ++ ['\x7d', '\x7d'] = kd ++ '\x7d' :: '\x7d' :: [] from rfl] at hcon
    rw [hmm] at hcon
    exact absurd hcon (by simp)
  have h1 : ¬ ('\x7b' :: '\x7b' :: (kd ++ ['\x7d', '\x7d'])).isPrefixOf
      ('\x7b' :: (k2d ++ '\x7d' :: '\x7d' :: t)) = true := by
    cases hk2 : k2d with
    | nil =>
      simp only [hk2, List.nil_append, List.isPrefixOf, beq_self_eq_true, Bool.true_and,
        Bool.and_eq_true]
      intro hcon
      exact absurd (by simpa using hcon.1) (by decide : ¬ ('\x7b' : Char) = '\x7d')
    | cons c k2r =>
      have hc : ¬ c = '\x7b' := (hkb c (by rw [hk2]; exact List.mem_cons_self _ _)).1
      simp only [List.cons_append, List.isPrefixOf, beq_self_eq_true, Bool.true_and,
        Bool.and_eq_true]
      intro hcon
      exact hc (Eq.symm (by simpa using hcon.1))
  rw [replaceAll_cons_nomatch _ _ _ _ h0, replaceAll_cons_nomatch _ _ _ _ h1,
    replaceAll_append_noBrace k2d _ _ _ (fun c hc => (hkb c hc).1)]
  have h2 : ¬ ('\x7b' :: '\x7b' :: (kd ++ ['\x7d', '\x7d'])).isPrefixOf
      ('\x7d' :: '\x7d' :: t) = true := by
    simp only [List.isPrefixOf, Bool.and_eq_true]
    intro hcon
    exact absurd (by simpa using hcon.1) (by decide : ¬ ('\x7b' : Char) = '\x7d')
  have h3 : ¬ ('\x7b' :: '\x7b' :: (kd ++ ['\x7d', '\x7d'])).isPrefixOf ('\x7d' :: t) = true := by
    simp only [List.isPrefixOf, Bool.and_eq_true]
    intro hcon
    exact absurd (by simpa using hcon.1) (by decide : ¬ ('\x7b' : Char) = '\x7d')
  rw [replaceAll_cons_nomatch _ _ _ _ h2, replaceAll_cons_nomatch _ _ _ _ h3]

theorem replaceAll_render (segs : List URLSeg) (k v : String)
    (hsegs : ∀ sg ∈ segs, segWF sg = true)
    (hk : braceFree k = true) (hv : braceFree v = true) :
    replaceAll (renderURL segs).data (placeholder k).data v.data
      = (renderURL (segs.map (substSegOne k v))).data := by
  induction segs with
  | nil =>
    show replaceAll [] _ _ = _
    rw [replaceAll_nil]
    rfl
  | cons sg rest ih =>
    have hwf : segWF sg = true := hsegs sg (List.mem_cons_self _ _)
    have hrest : ∀ t ∈ rest, segWF t = true := fun t ht => hsegs t (List.mem_cons_of_mem _ ht)
    cases sg with
    | lit s =>
      rw [renderURL_data_lit, placeholder_data,
        replaceAll_append_noBrace s.data _ _ _
          (fun c hc => (braceFree_spec s hwf c hc).1)]
      rw [← placeholder_data, ih hrest]
      rw [List.map_cons]
      show _ = (renderURL (URLSeg.lit s :: rest.map (substSegOne k v))).data
      rw [renderURL_data_lit]
    | ph k2 =>
      by_cases hkk : k2 = k
      · subst hkk
        rw [renderURL_data_ph, placeholder_data, replaceAll_ph_match]
        rw [← placeholder_data, ih hrest, List.map_cons]
        have hsub : substSegOne k2 v (URLSeg.ph k2) = URLSeg.lit v := by
          simp [substSegOne]
        rw [hsub, renderURL_data_lit]
      · rw [renderURL_data_ph, placeholder_data,
          replaceAll_ph_skip k.data k2.data _ _
            (braceFree_spec k hk) (braceFree_spec k2 hwf)
            (fun hd => hkk (String.ext hd).symm)]
        rw [← placeholder_data, ih hrest, List.map_cons]
        have hsub : substSegOne k v (URLSeg.ph k2) = URLSeg.ph k2 := by
          simp [substSegOne, hkk]
        rw [hsub, renderURL_data_ph]

theorem substSegOne_WF (k v : String) (hv : braceFree v = true) (sg : URLSeg)
    (hsg : segWF sg = true) : segWF (substSegOne k v sg) = true := by
  cases sg with
  | lit s => exact hsg
  | ph k2 =>
    by_cases hkk : k2 = k
    · simp only [substSegOne, if_pos hkk]
      exact hv
    · simp only [substSegOne, if_neg hkk]
      exact hsg

theorem substituteVars_render (vars : List (String × String)) (segs : List URLSeg)
    (hsegs : ∀ sg ∈ segs, segWF sg = true)
    (hvars : ∀ kv ∈ vars, braceFree kv.1 = true ∧ braceFree kv.2 = true) :
    substituteVars vars (renderURL segs) = renderURL (segs.map (substSeg vars)) := by
  induction vars generalizing segs with
  | nil =>
    show renderURL segs = renderURL (segs.map (substSeg []))
    have hid : segs.map (substSeg []) = segs := by
      rw [show segs.map (substSeg []) = segs.map id from
        List.map_congr_left (fun sg _ => by cases sg <;> rfl), List.map_id]
    rw [hid]
  | cons kv vars ih =>
    have hk := (hvars kv (List.mem_cons_self _ _)).1
    have hv := (hvars kv (List.mem_cons_self _ _)).2
    have hvars2 : ∀ e ∈ vars, braceFree e.1 = true ∧ braceFree e.2 = true :=
      fun e he => hvars e (List.mem_cons_of_mem _ he)
    show substituteVars vars
        (String.mk (replaceAll (renderURL segs).data (placeholder kv.1).data kv.2.data))
      = renderURL (segs.map (substSeg (kv :: vars)))
    rw [replaceAll_render segs kv.1 kv.2 hsegs hk hv]
    show substituteVars vars (renderURL (segs.map (substSegOne kv.1 kv.2)))
      = renderURL (segs.map (substSeg (kv :: vars)))
    rw [ih (segs.map (substSegOne kv.1 kv.2))
      (fun sg hsg => by
        obtain ⟨sg0, hsg0, rfl⟩ := List.mem_map.mp hsg
        exact substSegOne_WF kv.1 kv.2 hv sg0 (hsegs sg0 hsg0))
      hvars2]
    rw [List.map_map]
    congr 1
    refine List.map_congr_left (fun sg _ => ?_)
    cases sg with
    | lit s => rfl
    | ph k2 =>
      by_cases hkk : k2 = kv.1
      · subst hkk
        simp [substSegOne, substSeg, lookupStr_cons_self kv vars kv.1 rfl]
      · simp [substSegOne, substSeg, hkk,
          lookupStr_cons_ne kv vars k2 (fun he => hkk he.symm)]

/-- C7 (confirmed for well-formed URLs).  The full URL is the base URL
with one trailing slash stripped concatenated with the request URL; when
it decomposes into brace-free literal text and placeholders, and the
variables map is brace-free, substitution replaces every placeholder
whose key is bound by its (first) value and leaves every other
placeholder verbatim.  (The spec itself documents that interacting or
ambiguous placeholders are out of contract.) -/
theorem claim_C7 (env : Environment) (cfg : RequestConfig) (segs : List URLSeg)
    (hurl : stripTrailingSlash env.baseURL ++ cfg.url = renderURL segs)
    (hsegs : ∀ sg ∈ segs, segWF sg = true)
    (hvars : ∀ kv ∈ env.vars, braceFree kv.1 = true ∧ braceFree kv.2 = true) :
    substituteVars env.vars (stripTrailingSlash env.baseURL ++ cfg.url)
      = renderURL (segs.map (substSeg env.vars)) := by
  rw [hurl]
  exact substituteVars_render env.vars segs hsegs hvars

/-- C7, witness: variables host=api.test on the URL
https://(host)/v1/(missing): the bound placeholder is replaced, the
unbound one is left verbatim. -/
theorem claim_C7_witness :
    substituteVars exEnvHost.vars (stripTrailingSlash exEnvHost.baseURL ++ exCfgURL.url)
      = "https://api.test/v1/\x7b\x7bmissing\x7d\x7d" := by
  rw [claim_C7 exEnvHost exCfgURL segsEx (by decide) (by decide) (by decide)]
  decide

end ApiMan
